import Mathlib

/-!
Shallow embedding of the pyklatt speech synthesizer: src/parwave.py,
src/universal_rules.py, src/language_rules.py and src/transform.py.

Numbers: Python floats and ints are modelled as rationals for the parameter
pipeline (whose literal arithmetic is exact) and as reals inside the resonator
kernel, whose coefficients come from cos and exp.  The Python conversion
int(x) truncates toward zero and is modelled by pyInt.  The phoneme inventory
module src/ipa.py is not part of the given sources (the specification treats
it as an external collaborator), so the parameter table, the vowel, stop and
nasal class predicates and the cluster reduction enter each definition as
explicit function parameters.  Randomness (random.uniform draws) is modelled
by a stream of increments, universally quantified in the theorems.
-/

namespace PyKlatt

/-- Python int(x): truncation toward zero. -/
def pyInt {K : Type} [LinearOrderedField K] [FloorRing K] (x : K) : ℤ :=
  if 0 ≤ x then ⌊x⌋ else ⌈x⌉

/-- State of src.parwave._Resonator: the coefficients set by init and the two
delay slots. -/
structure Res (K : Type) where
  a : K
  b : K
  c : K
  d1 : K
  d2 : K

/-- Resonator.init: store the coefficients, clear the delays. -/
def Res.ofCoeff {K : Type} [LinearOrderedField K] (t : K × K × K) : Res K :=
  ⟨t.1, t.2.1, t.2.2, 0, 0⟩

/-- AntiResonator.init: a is replaced by 1/a, b by -b/a, c by -c/a. -/
def Res.antiOfCoeff {K : Type} [LinearOrderedField K] (t : K × K × K) : Res K :=
  ⟨1 / t.1, -t.2.1 * (1 / t.1), -t.2.2 * (1 / t.1), 0, 0⟩

/-- Resonator.resonate: y = a*x + b*d1 + c*d2, then d2 gets the old d1 and d1
the output. -/
def Res.resonate {K : Type} [LinearOrderedField K] (r : Res K) (x : K) :
    Res K × K :=
  let y := r.a * x + r.b * r.d1 + r.c * r.d2
  (⟨r.a, r.b, r.c, y, r.d1⟩, y)

/-- AntiResonator.resonate: same recurrence, but d1 gets the input. -/
def Res.antiresonate {K : Type} [LinearOrderedField K] (r : Res K) (x : K) :
    Res K × K :=
  let y := r.a * x + r.b * r.d1 + r.c * r.d2
  (⟨r.a, r.b, r.c, x, r.d1⟩, y)

/-- Lines 154-159 of parwave.py: scale by 32767, convert to int, clip into
the signed 16-bit range. -/
def clip {K : Type} [LinearOrderedField K] [FloorRing K] (x : K) : ℤ :=
  let o := pyInt (x * 32767)
  if 32767 < o then 32767 else if o < -32768 then -32768 else o

/-- Python slice l[:k], which counts from the end when k is negative. -/
def pySliceTo (l : List ℤ) (k : ℤ) : List ℤ :=
  if 0 ≤ k then l.take k.toNat else l.take (l.length - (-k).toNat)

/-- The doubling loop of turbo mode (while len(sounds)*2 < samples_target:
sounds *= 2).  The fuel argument only bounds the number of iterations; tile
passes target.toNat, which is enough whenever the Python loop terminates
(the list is nonempty, so its length at least doubles each round). -/
def doubleWhile : ℕ → List ℤ → ℤ → List ℤ
  | 0, s, _ => s
  | f + 1, s, target =>
    if (s.length * 2 : ℤ) < target then doubleWhile f (s ++ s) target else s

/-- Lines 164-166 of parwave.py: double the short buffer until twice its
length reaches the target, then append the slice that pads it to the target
sample count. -/
def tile (s : List ℤ) (target : ℤ) : List ℤ :=
  let d := doubleWhile target.toNat s target
  d ++ pySliceTo d (target - d.length)

section SynthLoop

variable {K St : Type} [LinearOrderedField K] [FloorRing K]

/-- The per-sample loop of Synthesizer.synthesize (lines 125-167 of
parwave.py), abstracted over the per-sample state step.  The first argument
is the remaining iteration count (the loop runs samples_target + f0_hz
times), the second the current tick t.  Output samples are kept once
t >= f0_hz; in turbo mode the loop breaks at t == f0_hz*2 - 1 and tiles the
buffer gathered so far. -/
def synthLoop (step : St → St × K) (turbo : Bool) (T L : ℤ) :
    ℕ → ℕ → St → List ℤ → List ℤ × St
  | 0, _, st, sounds => (sounds, st)
  | r + 1, t, st, sounds =>
    let p := step st
    if L ≤ (t : ℤ) then
      let sounds2 := sounds ++ [clip p.2]
      if turbo ∧ (t : ℤ) = 2 * L - 1 then (tile sounds2 T, p.1)
      else synthLoop step turbo T L r (t + 1) p.1 sounds2
    else synthLoop step turbo T L r (t + 1) p.1 sounds

/-- The next n clipped output samples of the stepped machine, with the state
it leaves behind. -/
def runOuts (step : St → St × K) : ℕ → St → List ℤ × St
  | 0, st => ([], st)
  | n + 1, st =>
    let p := step st
    let q := runOuts step n p.1
    (clip p.2 :: q.1, q.2)

/-- The state after n steps of the machine. -/
def advance (step : St → St × K) : ℕ → St → St
  | 0, st => st
  | n + 1, st => advance step n (step st).1

end SynthLoop

/-- The mutable state of one Synthesizer.synthesize call: the resonator bank,
the previous raw result, the pulse-train counter, and the source generator
(position in the random increment stream plus the wandering accumulator,
Synthesizer._noise). -/
structure KState (K : Type) where
  gp : Res K
  gz : Res K
  gs : Res K
  np : Res K
  nz : Res K
  c1 : Res K
  pairs : List (Res K × Res K × K)
  last_result : K
  period_index : ℤ
  cursor : ℕ
  acc : K

/-- The inner for-loop of lines 146-148 of parwave.py: chain the source
through each cascade resonator (formants 6 down to 2) while summing each
parallel resonator driven by frication times its amplitude. -/
def cascadeFold {K : Type} [LinearOrderedField K] (fric : K) :
    List (Res K × Res K × K) → K → K → List (Res K × Res K × K) × K × K
  | [], source, result => ([], source, result)
  | (cr, pr, amp) :: rest, source, result =>
    let c := cr.resonate source
    let p := pr.resonate (fric * amp)
    let q := cascadeFold fric rest c.2 (result + p.2)
    ((c.1, p.1, amp) :: q.1, q.2.1, q.2.2)

/-- One sample tick of Synthesizer.synthesize (lines 126-152 of parwave.py):
draw correlated noise, emit the pulse train, run the glottal and nasal
stages, combine cascade and parallel branches, first-difference the result. -/
def synthStep {K : Type} [LinearOrderedField K] (inc : ℕ → K) (f0_hz : ℤ)
    (av avs ah af ab : K) (st : KState K) : KState K × K :=
  let acc := st.acc + inc st.cursor
  let noise := acc
  let pulse : K := if st.period_index = f0_hz then 1 else 0
  let pIdx : ℤ := if st.period_index = f0_hz then 0 else st.period_index + 1
  let g1 := st.gp.resonate pulse
  let g2 := st.gz.antiresonate g1.2
  let g3 := st.gs.resonate g1.2
  let src1 := g2.2 * av + g3.2 * avs + noise * ah
  let n1 := st.np.resonate src1
  let n2 := st.nz.antiresonate n1.2
  let frication := noise * af
  let f := cascadeFold frication st.pairs n2.2 (frication * ab)
  let c := st.c1.resonate f.2.1
  let result := f.2.2 + c.2
  let output := result - st.last_result
  (⟨g1.1, g2.1, g3.1, n1.1, n2.1, c.1, f.1, result, pIdx, st.cursor + 1, acc⟩,
    output)

/-- The 33 synthesis parameters in the unpack order of parwave.py line 102. -/
structure Params33 where
  fgp : ℚ
  fgz : ℚ
  fgs : ℚ
  fnp : ℚ
  fnz : ℚ
  f1 : ℚ
  f2 : ℚ
  f3 : ℚ
  f4 : ℚ
  f5 : ℚ
  f6 : ℚ
  bgp : ℚ
  bgz : ℚ
  bgs : ℚ
  bnp : ℚ
  bnz : ℚ
  bw1 : ℚ
  bw2 : ℚ
  bw3 : ℚ
  bw4 : ℚ
  bw5 : ℚ
  bw6 : ℚ
  a2 : ℚ
  a3 : ℚ
  a4 : ℚ
  a5 : ℚ
  a6 : ℚ
  ab : ℚ
  ah : ℚ
  af : ℚ
  av : ℚ
  avs : ℚ
  milliseconds : ℚ

/-- Coefficient triple (a, b, c) of _initResonators for one
frequency/bandwidth pair: b = cos(2*pi*1e-4*f) * 2*e^(-pi*1e-4*bw),
c = -e^(-2*pi*1e-4*bw), a = 1 - b - c. -/
noncomputable def resCoeff (f bw : ℚ) : ℝ × ℝ × ℝ :=
  let b : ℝ :=
    Real.cos ((2 * Real.pi * 0.0001) * (f : ℝ)) *
      (2 * Real.exp ((Real.pi * -0.0001) * (bw : ℝ)))
  let c : ℝ := -Real.exp ((-(2 * Real.pi * 0.0001)) * (bw : ℝ))
  (1 - b - c, b, c)

/-- The process-lifetime state of a Synthesizer between synthesize calls:
position in the random stream and the noise accumulator (_noise). -/
structure SynthSt where
  cursor : ℕ
  noise : ℝ

/-- f0_hz = int(_F0_HZ * f0_multiplier), parwave.py line 101. -/
def f0Hz (f0m : ℚ) : ℤ := pyInt (80 * f0m)

/-- samples_target = int(milliseconds * FREQUENCY), parwave.py line 124. -/
def samplesTarget (ms : ℚ) : ℤ := pyInt (ms * 10)

/-- The resonator bank and loop variables as _initResonators plus lines
121-123 of parwave.py leave them before the first tick.  The pair list is
the reversed multiplexed collection of line 117: formants 6 down to 2, each
cascade resonator sharing coefficients with its parallel partner. -/
noncomputable def initK (p : Params33) (f0_hz : ℤ) (st : SynthSt) : KState ℝ :=
  ⟨Res.ofCoeff (resCoeff p.fgp p.bgp),
    Res.antiOfCoeff (resCoeff p.fgz p.bgz),
    Res.ofCoeff (resCoeff p.fgs p.bgs),
    Res.ofCoeff (resCoeff p.fnp p.bnp),
    Res.antiOfCoeff (resCoeff p.fnz p.bnz),
    Res.ofCoeff (resCoeff p.f1 p.bw1),
    [(Res.ofCoeff (resCoeff p.f6 p.bw6), Res.ofCoeff (resCoeff p.f6 p.bw6),
        (p.a6 : ℝ)),
      (Res.ofCoeff (resCoeff p.f5 p.bw5), Res.ofCoeff (resCoeff p.f5 p.bw5),
        (p.a5 : ℝ)),
      (Res.ofCoeff (resCoeff p.f4 p.bw4), Res.ofCoeff (resCoeff p.f4 p.bw4),
        (p.a4 : ℝ)),
      (Res.ofCoeff (resCoeff p.f3 p.bw3), Res.ofCoeff (resCoeff p.f3 p.bw3),
        (p.a3 : ℝ)),
      (Res.ofCoeff (resCoeff p.f2 p.bw2), Res.ofCoeff (resCoeff p.f2 p.bw2),
        (p.a2 : ℝ))],
    0, f0_hz, st.cursor, st.noise⟩

/-- The per-sample step of one synthesize call, with the amplitudes drawn
from the parameter set. -/
noncomputable def synthStepOf (inc : ℕ → ℝ) (p : Params33) (f0m : ℚ) :
    KState ℝ → KState ℝ × ℝ :=
  synthStep inc (f0Hz f0m) (p.av : ℝ) (p.avs : ℝ) (p.ah : ℝ) (p.af : ℝ)
    (p.ab : ℝ)

/-- Synthesizer.synthesize on an unpacked parameter set: run the sample loop
for samples_target + f0_hz ticks from a freshly initialized resonator bank,
and return the kept samples with the surviving source-generator state. -/
noncomputable def synthCore (inc : ℕ → ℝ) (st0 : SynthSt) (p : Params33)
    (f0m : ℚ) (turbo : Bool) : List ℤ × SynthSt :=
  let T := samplesTarget p.milliseconds
  let L := f0Hz f0m
  let r :=
    synthLoop (synthStepOf inc p f0m) turbo T L (T + L).toNat 0
      (initK p L st0) []
  (r.1, ⟨r.2.cursor, r.2.acc⟩)

/-- Synthesizer.synthesize: unpack the 33 parameters (line 102 of parwave.py;
a sequence of any other length raises in Python, modelled by the empty
result) and run the synthesis loop. -/
noncomputable def synthesize (inc : ℕ → ℝ) (st0 : SynthSt)
    (parameters : List ℚ) (f0m : ℚ) (turbo : Bool) : List ℤ × SynthSt :=
  match parameters with
  | x0 :: x1 :: x2 :: x3 :: x4 :: x5 :: x6 :: x7 :: x8 :: x9 :: x10 ::
      x11 :: x12 :: x13 :: x14 :: x15 :: x16 :: x17 :: x18 :: x19 :: x20 ::
      x21 :: x22 :: x23 :: x24 :: x25 :: x26 :: x27 :: x28 :: x29 :: x30 ::
      x31 :: x32 :: [] =>
    synthCore inc st0
      ⟨x0, x1, x2, x3, x4, x5, x6, x7, x8, x9, x10,
        x11, x12, x13, x14, x15, x16, x17, x18, x19, x20, x21,
        x22, x23, x24, x25, x26, x27, x28, x29, x30, x31, x32⟩ f0m turbo
  | _ => ([], st0)

/-- The short buffer turbo mode has gathered at the moment tiling begins:
the clipped outputs of ticks f0_hz through 2*f0_hz - 1, the warm-up period
having been discarded. -/
noncomputable def turboBuffer (inc : ℕ → ℝ) (st0 : SynthSt) (p : Params33)
    (f0m : ℚ) : List ℤ :=
  let L := f0Hz f0m
  (runOuts (synthStepOf inc p f0m) L.toNat
      (advance (synthStepOf inc p f0m) L.toNat (initK p L st0))).1

/-- Synthesizer.generateSilence: milliseconds * FREQUENCY zero samples, and
the noise accumulator is reset to 0.0. -/
def generateSilence (st : SynthSt) (milliseconds : ℕ) : List ℤ × SynthSt :=
  (List.replicate (milliseconds * 10) 0, ⟨st.cursor, 0⟩)

/-- One synthesis frame: a list of 33 rationals, the last being the duration
in milliseconds. -/
abbrev Frame := List ℚ

/-- A phoneme as transform.py handles it: an IPA cluster string. -/
abbrev Phon := List Char

/-- A whitespace-delimited token of the input text. -/
abbrev Token := List Char

/-- The 2:1 blend comprehension [(c*2 + p)/3 for (c, p) in zip(xs, ys)] the
universal rules use, first components weighted double. -/
def blend21 (xs ys : List ℚ) : List ℚ :=
  (xs.zip ys).map (fun q => (q.1 * 2 + q.2) / 3)

/-- The 1:2 blend comprehension [(v + n*2)/3 for (v, n) in zip(xs, ys)],
second components weighted double. -/
def blend12 (xs ys : List ℚ) : List ℚ :=
  (xs.zip ys).map (fun q => (q.1 + q.2 * 2) / 3)

/-- The edge trim of shapeContours: keep the 32 acoustic values and cut the
duration by 15 milliseconds, flooring at 5. -/
def trim15 (f : Frame) : Frame := f.take 32 ++ [max 5 (f.getD 32 0 - 15)]

/-- universal_rules.bridgeWords: when a word-initial vowel follows an earlier
word, either append a 50ms glottal pause (prior word ended in a vowel) or
insert, before the current frame, a 50ms average of the current frame and
the prior word's terminal consonant. -/
def bridgeWords (vowelSet : Phon → Bool) (tbl : Phon → List ℚ) (c : Phon)
    (preceding : List Phon) (previous_words : List (List Char))
    (pl : List Frame) : List Frame :=
  if ¬ vowelSet c then pl
  else if preceding = [] ∧ previous_words ≠ [] then
    let ch := (previous_words.getLastD []).getLastD (Char.ofNat 32)
    if vowelSet [ch] then pl ++ [(tbl ['h']).take 32 ++ [50]]
    else
      ((((pl.headD []).take 32).zip (tbl [ch])).map
        (fun q => (q.2 + q.1) / 2) ++ [50]) :: pl
  else pl

/-- universal_rules.nasalizeVowel: a non-nasal vowel directly followed by a
nasal keeps half its duration and is followed by a 2:1 and then a 1:2
vowel/nasal blend at int(d*0.167) and int(d*0.333) milliseconds. -/
def nasalizeVowel (vowelSet nasalSet : Phon → Bool) (tbl : Phon → List ℚ)
    (c : Phon) (following : List Phon) (pl : List Frame) : List Frame :=
  if following = [] ∨ ¬ nasalSet (following.headD []) then pl
  else if ¬ vowelSet c ∨ nasalSet c then pl
  else
    match pl with
    | [] => []
    | vowel :: rest =>
      let vowel_duration := vowel.getD 32 0
      let vowel_values := vowel.take 32
      let nasal_values := (tbl (following.headD [])).take 32
      (vowel_values ++ [((pyInt (vowel_duration * (1 / 2)) : ℤ) : ℚ)]) ::
        (blend21 vowel_values nasal_values ++
          [((pyInt (vowel_duration * (167 / 1000)) : ℤ) : ℚ)]) ::
        (blend12 vowel_values nasal_values ++
          [((pyInt (vowel_duration * (333 / 1000)) : ℤ) : ℚ)]) :: rest

/-- The lead half of universal_rules.shapeContours (lines 150-161): when a
phoneme precedes, trim 15ms (floor 5ms) from the lead frame and insert a
15ms 2:1 blend toward the preceding phoneme (or a fixed glottal-stop frame
when the current phoneme is a stop). -/
def shapeLead (stopSet : Phon → Bool) (tbl : Phon → List ℚ) (c : Phon)
    (preceding : List Phon) (pl : List Frame) : List Frame :=
  if preceding ≠ [] then
    let lead_in_sound := pl.headD []
    let lead_in_values := lead_in_sound.take 32
    let pl2 := pl.set 0 (trim15 lead_in_sound)
    if ¬ stopSet c then
      (blend21 lead_in_values ((tbl (preceding.getLastD [])).take 32) ++
        [15]) :: pl2
    else ((tbl ['ʔ']).take 32 ++ [15]) :: pl2
  else pl

/-- The tail half of universal_rules.shapeContours (lines 163-174): when a
phoneme follows and the current phoneme is not a vowel directly followed by
a nasal, trim the tail frame and append a 15ms 2:1 blend toward the
follower (or a fixed h frame when the follower is a stop). -/
def shapeTail (vowelSet stopSet nasalSet : Phon → Bool)
    (tbl : Phon → List ℚ) (c : Phon) (following : List Phon)
    (pl1 : List Frame) : List Frame :=
  if following ≠ [] ∧ ¬ (vowelSet c ∧ nasalSet (following.headD [])) then
    let lead_out_sound := pl1.getLastD []
    let lead_out_values := lead_out_sound.take 32
    let pl2 := pl1.set (pl1.length - 1) (trim15 lead_out_sound)
    if ¬ stopSet (following.headD []) then
      pl2 ++ [blend21 lead_out_values ((tbl (following.headD [])).take 32) ++
        [15]]
    else pl2 ++ [(tbl ['h']).take 32 ++ [15]]
  else pl1

/-- universal_rules.shapeContours: the lead half followed by the tail half,
exactly as the source runs its two if blocks in order on the same list. -/
def shapeContours (vowelSet stopSet nasalSet : Phon → Bool)
    (tbl : Phon → List ℚ) (c : Phon) (preceding following : List Phon)
    (pl : List Frame) : List Frame :=
  shapeTail vowelSet stopSet nasalSet tbl c following
    (shapeLead stopSet tbl c preceding pl)

/-- The context handed unchanged to every language rule by
language_rules.applyRules. -/
structure RuleCtx where
  ipa_character : Phon
  preceding_phonemes : List Phon
  following_phonemes : List Phon
  word_position : ℕ
  remaining_words : ℕ
  previous_words : List (List Char)
  following_words : List (List Char)
  sentence_position : ℕ
  remaining_sentences : ℕ
  is_quoted : Bool
  is_emphasized : Bool
  is_content : Bool
  is_question : Bool
  is_exclamation : Bool

/-- One language rule: context, frames already finalized for this phoneme,
count of frames still to process, frames inserted so far before and after
the current frame by the chain, and the current frame; it returns frames to
prepend, frames to append, an f0 contribution, and the possibly mutated
current frame (rules may update the frame in place in Python). -/
abbrev Rule :=
  RuleCtx → List Frame → ℕ → List Frame → List Frame → Frame →
    List Frame × List Frame × ℚ × Frame

/-- The inner loop of applyRules (lines 85-89 of language_rules.py): run each
rule in order, growing the inserted-frame lists on both sides of the current
frame and multiplying the f0 contributions. -/
def applyRulesFrame (ctx : RuleCtx) (transformed : List Frame)
    (remaining : ℕ) :
    List Rule → List Frame → List Frame → ℚ → Frame →
      List Frame × List Frame × ℚ × Frame
  | [], pre, post, m, f => (pre, post, m, f)
  | rule :: rest, pre, post, m, f =>
    let r := rule ctx transformed remaining pre post f
    applyRulesFrame ctx transformed remaining rest (pre ++ r.1)
      (r.2.1 ++ post) (m * r.2.2.1) r.2.2.2

/-- The outer loop of applyRules: process each frame with the whole rule
chain, emit it between what the chain inserted, and broadcast the
accumulated multiplier over everything this frame introduced. -/
def applyRulesAux (rules : List Rule) (ctx : RuleCtx) (n0 : ℕ) :
    ℕ → List Frame → List Frame × List ℚ → List Frame × List ℚ
  | _, [], acc => acc
  | i, parameters :: rest, acc =>
    let r := applyRulesFrame ctx acc.1 (n0 - i) rules [] [] 1 parameters
    applyRulesAux rules ctx n0 (i + 1) rest
      (acc.1 ++ r.1 ++ [r.2.2.2] ++ r.2.1,
        acc.2 ++ List.replicate (r.1.length + 1 + r.2.1.length) r.2.2.1)

/-- language_rules.applyRules over an explicit rule list (the configured
language module supplies RULE_FUNCTIONS). -/
def applyRules (rules : List Rule) (ctx : RuleCtx)
    (parameters_list : List Frame) : List Frame × List ℚ :=
  applyRulesAux rules ctx (parameters_list.length - 1) 0 parameters_list
    ([], [])

/-- The characters _FILTER_REGEXP strips from a token. -/
def specialChar (ch : Char) : Bool :=
  ch == '*' || ch == Char.ofNat 34 || ch == Char.ofNat 39 || ch == '-' ||
    ch == '+' || ch == '<' || ch == '>' || ch == ',' || ch == '.' ||
    ch == '?' || ch == '!'

/-- The duration and pitch extension characters of the token grammar. -/
def extChar (ch : Char) : Bool :=
  ch == '-' || ch == '+' || ch == '<' || ch == '>'

/-- The double-quote character, written by code point to keep it out of the
source text. -/
def quoteChar : Char := Char.ofNat 34

/-- The apostrophe (content marker) character. -/
def aposChar : Char := Char.ofNat 39

/-- The quote/emphasis marker alternatives of _WORD_REGEXP, in the regex
alternation order, the absent option last. -/
def leadMarks : List Token :=
  [['*'], [quoteChar], ['*', quoteChar], [quoteChar, '*'], []]

/-- The terminal punctuation alternatives, the absent option last. -/
def punctMarks : List Token :=
  [['.'], ['?'], ['!'], ['?', '!'], ['!', '?'], []]

/-- Drop the given leading characters from a token when they are present. -/
def dropLead (pre t : Token) : Option Token :=
  if t.take pre.length = pre then some (t.drop pre.length) else none

/-- Group 3 of _WORD_REGEXP: the remainder must be exactly a quote/emphasis
close followed by terminal punctuation (either possibly absent). -/
def matchClose (r : Token) : Option Token :=
  leadMarks.findSome? fun cl =>
    punctMarks.findSome? fun pu => if r = cl ++ pu then some r else none

/-- Groups 2 and 3 of _WORD_REGEXP on what follows the lead markers: one
phoneme character, a run of extension or phoneme characters, an optional
comma, then a close group consuming the rest.  Greedy consumption agrees
with the backtracking regex because the phoneme inventory is disjoint from
the markup characters. -/
def matchBody (P : Char → Bool) (r : Token) : Option (Token × Token) :=
  match r with
  | [] => none
  | ch :: rest =>
    if P ch then
      let mid := rest.takeWhile (fun x => extChar x || P x)
      let rest2 := rest.dropWhile (fun x => extChar x || P x)
      let g2 := ch :: mid
      let pick :=
        match rest2 with
        | c2 :: rs => if c2 = ',' then (g2 ++ [','], rs) else (g2, rest2)
        | [] => (g2, rest2)
      match matchClose pick.2 with
      | some g3 => some (pick.1, g3)
      | none => none
    else none

/-- _WORD_REGEXP.match on a token, for the phoneme inventory P: the three
groups (lead markers, phoneme cluster with extensions and optional comma,
close markers with terminal punctuation), or none when the token fails the
grammar. -/
def matchToken (P : Char → Bool) (t : Token) :
    Option (Token × Token × Token) :=
  (leadMarks.flatMap (fun q => [q ++ [aposChar], q])).findSome? fun g1 =>
    match dropLead g1 t with
    | some r =>
      match matchBody P r with
      | some bg => some (g1, bg.1, bg.2)
      | none => none
    | none => none

/-- The failure transform.py signals for a token that does not match the
grammar: the 1-based word index within the sentence and the 1-based sentence
index within the paragraph (the spec names it MalformedTokenError; the code
raises ValueError with exactly this data). -/
inductive TransformError where
  | malformedToken (word : ℕ) (sentence : ℕ)
  deriving DecidableEq

/-- One extracted sentence: the words (token text plus word markup flags,
1 quoted, 2 emphasized, 3 content) and the sentence markup flags
(1 question, 2 exclamation). -/
abbrev Sentence := List (Token × List ℕ) × List ℕ

/-- The while loop of transform._extractSentence: pop tokens, match each
against the grammar (failure is fatal, reporting word and sentence indices),
carry quote/emphasis state across tokens, and stop at the first terminal
punctuation, setting the sentence flags. -/
def extractSentenceAux (P : Char → Bool) :
    List Token → ℕ → Bool → Bool → List (Token × List ℕ) →
      Except TransformError (Sentence × List Token)
  | [], _, _, _, words => .ok ((words, []), [])
  | token :: rest, n, quotation, emphasis, words =>
    match matchToken P token with
    | none => .error (.malformedToken (words.length + 1) n)
    | some g =>
      let quotation := quotation || g.1.contains quoteChar
      let emphasis := emphasis || g.1.contains '*'
      let wm :=
        (if quotation then [1] else []) ++ (if emphasis then [2] else []) ++
          (if g.1.contains aposChar then [3] else [])
      let words := words ++ [(g.2.1, wm)]
      let quotation := quotation && !(g.2.2.contains quoteChar)
      let emphasis := emphasis && !(g.2.2.contains '*')
      if g.2.2.contains '.' then .ok ((words, []), rest)
      else if g.2.2.contains '?' then
        .ok ((words, 1 :: (if g.2.2.contains '!' then [2] else [])), rest)
      else if g.2.2.contains '!' then
        .ok ((words, (if g.2.2.contains '?' then [1] else []) ++ [2]), rest)
      else extractSentenceAux P rest n quotation emphasis words

/-- transform._extractSentence: assemble the next sentence from the token
queue, starting with clear markup state and an empty word list. -/
def extractSentence (P : Char → Bool) (tokens : List Token) (n : ℕ) :
    Except TransformError (Sentence × List Token) :=
  extractSentenceAux P tokens n false false []

/-- The sentence loop of transform.paragraphToSound (lines 56-58): extract
sentences until the token queue is empty, numbering them from 1.  The fuel
only bounds the iteration count; each extraction consumes at least one
token, so the initial token count is enough. -/
def sentencesOfAux (P : Char → Bool) :
    ℕ → List Token → List Sentence → Except TransformError (List Sentence)
  | _, [], acc => .ok acc
  | 0, _ :: _, acc => .ok acc
  | fuel + 1, token :: rest, acc =>
    match extractSentence P (token :: rest) (acc.length + 1) with
    | .error e => .error e
    | .ok s => sentencesOfAux P fuel s.2 (acc ++ [s.1])

/-- All sentences of a paragraph, or the first malformed-token failure. -/
def sentencesOf (P : Char → Bool) (tokens : List Token) :
    Except TransformError (List Sentence) :=
  sentencesOfAux P tokens.length tokens []

/-- The external collaborators and options of the sound pipeline: the phoneme
inventory predicate for the tokenizer, the class sets, the parameter table,
the cluster reduction of src/ipa.py, the language ruleset, the random
increment stream, and the turbo option. -/
structure PipelineEnv where
  P : Char → Bool
  vowelSet : Phon → Bool
  stopSet : Phon → Bool
  nasalSet : Phon → Bool
  tbl : Phon → List ℚ
  reduce : Token → List Phon
  rules : List Rule
  inc : ℕ → ℝ
  turbo : Bool

/-- The extension-collapsing loop of transform._wordToSound (lines 162-175):
fold duration and pitch extension characters into the multiplier of the
phoneme seen last. -/
def buildPhonemesGo (subject : Phon) (dm pm : ℚ) :
    List Phon → List (Phon × ℚ × ℚ)
  | [] => [(subject, dm, pm)]
  | i :: rest =>
    if i = ['>'] then buildPhonemesGo subject (dm * (3 / 2)) pm rest
    else if i = ['<'] then buildPhonemesGo subject (dm * (1 / 2)) pm rest
    else if i = ['+'] then buildPhonemesGo subject dm (pm * (95 / 100)) rest
    else if i = ['-'] then buildPhonemesGo subject dm (pm * (105 / 100)) rest
    else (subject, dm, pm) :: buildPhonemesGo i 1 1 rest

/-- The phoneme occurrences of a reduced token (empty Python input raises;
modelled as the empty list). -/
def buildPhonemes : List Phon → List (Phon × ℚ × ℚ)
  | [] => []
  | s :: rest => buildPhonemesGo s 1 1 rest

/-- Python parameters[-1] = x on a list. -/
def setLast (l : List ℚ) (x : ℚ) : List ℚ := l.set (l.length - 1) x

/-- The synthesis loop of transform._phonemeToSound (lines 262-266): render
each frame with its f0 multiplier times the phoneme's pitch multiplier,
threading the synthesizer's noise state. -/
noncomputable def soundFold (env : PipelineEnv) (pm : ℚ) :
    List (Frame × ℚ) → SynthSt → List ℤ × SynthSt
  | [], st => ([], st)
  | fm :: rest, st =>
    let s := synthesize env.inc st fm.1 (fm.2 * pm) env.turbo
    let r := soundFold env pm rest s.2
    (s.1 ++ r.1, r.2)

/-- transform._phonemeToSound: look the phoneme up, scale its duration by
the occurrence's duration multiplier, push the frame list through the four
universal stages and the language rules, and synthesize each resulting
frame. -/
noncomputable def phonemeToSound (env : PipelineEnv) (phoneme : Phon × ℚ × ℚ)
    (preceding following : List Phon) (word_position remaining_words : ℕ)
    (previous_words following_words : List (List Char))
    (sentence_position remaining_sentences : ℕ)
    (is_quoted is_emphasized is_content is_question is_exclamation : Bool)
    (st : SynthSt) : List ℤ × SynthSt :=
  let parameters := env.tbl phoneme.1
  let parameters :=
    setLast parameters ((pyInt (parameters.getLastD 0 * phoneme.2.1) : ℤ) : ℚ)
  let pl := [parameters]
  let pl := nasalizeVowel env.vowelSet env.nasalSet env.tbl phoneme.1
    following pl
  let pl := bridgeWords env.vowelSet env.tbl phoneme.1 preceding
    previous_words pl
  let pl := shapeContours env.vowelSet env.stopSet env.nasalSet env.tbl
    phoneme.1 preceding following pl
  let r := applyRules env.rules
    ⟨phoneme.1, preceding, following, word_position, remaining_words,
      previous_words, following_words, sentence_position, remaining_sentences,
      is_quoted, is_emphasized, is_content, is_question, is_exclamation⟩ pl
  soundFold env phoneme.2.2 (r.1.zip r.2) st

/-- The phoneme loop of transform._wordToSound (lines 180-182). -/
noncomputable def phonemeLoop (env : PipelineEnv)
    (phonemes : List (Phon × ℚ × ℚ)) (word_position remaining_words : ℕ)
    (previous_words following_words : List (List Char))
    (sentence_position remaining_sentences : ℕ)
    (is_quoted is_emphasized is_content is_question is_exclamation : Bool) :
    ℕ → List (Phon × ℚ × ℚ) → SynthSt → List ℤ × SynthSt
  | _, [], st => ([], st)
  | i, ph :: rest, st =>
    let s := phonemeToSound env ph ((phonemes.take i).map (fun q => q.1))
      ((phonemes.drop (i + 1)).map (fun q => q.1)) word_position
      remaining_words previous_words following_words sentence_position
      remaining_sentences is_quoted is_emphasized is_content is_question
      is_exclamation st
    let r := phonemeLoop env phonemes word_position remaining_words
      previous_words following_words sentence_position remaining_sentences
      is_quoted is_emphasized is_content is_question is_exclamation (i + 1)
      rest s.2
    (s.1 ++ r.1, r.2)

/-- transform._wordToSound: strip a trailing comma (remembering to add a
quarter second of silence), read the word markup flags, collapse extensions
into per-phoneme multipliers, and render each phoneme in order. -/
noncomputable def wordToSound (env : PipelineEnv) (word : Token × List ℕ)
    (position remaining_words : ℕ)
    (previous_words following_words : List (List Char))
    (sentence_position remaining_sentences : ℕ)
    (is_question is_exclamation : Bool) (st : SynthSt) : List ℤ × SynthSt :=
  let terminal_pause := word.1.getLast? == some ','
  let token := if terminal_pause then word.1.dropLast else word.1
  let is_quoted := word.2.contains 1
  let is_emphasized := word.2.contains 2
  let is_content := word.2.contains 3
  let phonemes := buildPhonemes (env.reduce token)
  let s := phonemeLoop env phonemes position remaining_words previous_words
    following_words sentence_position remaining_sentences is_quoted
    is_emphasized is_content is_question is_exclamation 0 phonemes st
  if terminal_pause then
    let sil := generateSilence s.2 250
    (s.1 ++ sil.1, sil.2)
  else s

/-- The word loop of transform._sentenceToSound (lines 103-104), handing each
word the filtered text of its neighbors. -/
noncomputable def wordLoop (env : PipelineEnv)
    (words : List (Token × List ℕ)) (filtered : List (List Char))
    (sentence_position remaining_sentences : ℕ)
    (is_question is_exclamation : Bool) :
    ℕ → List (Token × List ℕ) → SynthSt → List ℤ × SynthSt
  | _, [], st => ([], st)
  | i, w :: rest, st =>
    let s := wordToSound env w (i + 1) (words.length - i - 1)
      (filtered.take i) (filtered.drop (i + 1)) sentence_position
      remaining_sentences is_question is_exclamation st
    let r := wordLoop env words filtered sentence_position
      remaining_sentences is_question is_exclamation (i + 1) rest s.2
    (s.1 ++ r.1, r.2)

/-- transform._sentenceToSound: read the sentence flags, strip markup
characters from every word's text, and render the words in order. -/
noncomputable def sentenceToSound (env : PipelineEnv) (sentence : Sentence)
    (position remaining_sentences : ℕ) (st : SynthSt) : List ℤ × SynthSt :=
  let is_question := sentence.2.contains 1
  let is_exclamation := sentence.2.contains 2
  let filtered :=
    sentence.1.map (fun w => w.1.filter (fun ch => !(specialChar ch)))
  wordLoop env sentence.1 filtered position remaining_sentences is_question
    is_exclamation 0 sentence.1 st

/-- The sentence loop of transform.paragraphToSound (lines 66-68): after each
sentence's audio, the precomputed half second of silence is appended. -/
noncomputable def paragraphLoop (env : PipelineEnv) (silence : List ℤ)
    (total : ℕ) : ℕ → List Sentence → SynthSt → List (List ℤ) × SynthSt
  | _, [], st => ([], st)
  | i, s :: rest, st =>
    let snd := sentenceToSound env s (i + 1) (total - i - 1) st
    let r := paragraphLoop env silence total (i + 1) rest snd.2
    (snd.1 :: silence :: r.1, r.2)

/-- transform.paragraphToSound on an already whitespace-split token list:
extract the sentences (a malformed token is fatal to the paragraph), render
each, and interleave the half-second silences. -/
noncomputable def paragraphToSound (env : PipelineEnv) (tokens : List Token)
    (st0 : SynthSt) : Except TransformError (List (List ℤ) × SynthSt) :=
  match sentencesOf env.P tokens with
  | .error e => .error e
  | .ok sentences =>
    let sil := generateSilence st0 500
    let r := paragraphLoop env sil.1 sentences.length 0 sentences sil.2
    .ok (r.1, r.2)

/-- m concatenated copies of a list (proof vocabulary for the turbo doubling
loop). -/
def repList (s : List ℤ) : ℕ → List ℤ
  | 0 => []
  | m + 1 => s ++ repList s m

/-- The audio of each sentence of a paragraph in order, with the
synthesizer state threaded from one sentence to the next (statement
vocabulary for the paragraph theorem). -/
noncomputable def sentenceSoundList (env : PipelineEnv) (total : ℕ) :
    ℕ → List Sentence → SynthSt → List (List ℤ)
  | _, [], _ => []
  | i, s :: rest, st =>
    let snd := sentenceToSound env s (i + 1) (total - i - 1) st
    snd.1 :: sentenceSoundList env total (i + 1) rest snd.2

/-- Each segment followed by the fixed silence segment. -/
def interleaveSil (sil : List ℤ) : List (List ℤ) → List (List ℤ)
  | [] => []
  | x :: xs => x :: sil :: interleaveSil sil xs

/-- An all-zero parameter table for the concrete instances. -/
def zeroTbl : Phon → List ℚ := fun _ => List.replicate 33 0

/-- A 100 millisecond all-zero frame for the concrete instances. -/
def vowel100 : Frame := List.replicate 32 0 ++ [100]

/-- A table whose h entry is the constant 7, to make the inserted glottal
pause recognizable in the concrete liaison instance. -/
def bridgeTestTbl : Phon → List ℚ := fun p =>
  if p = ['h'] then List.replicate 33 7 else List.replicate 33 0

/-- A trivial rule context for the concrete rule-chain instances. -/
def ctx0 : RuleCtx :=
  ⟨[], [], [], 0, 0, [], [], 0, 0, false, false, false, false, false⟩

/-- The unpacked form of the all-zero 100 millisecond parameter set. -/
def params100 : Params33 :=
  ⟨0, 0, 0, 0, 0, 0, 0, 0, 0, 0, 0, 0, 0, 0, 0, 0, 0, 0, 0, 0, 0, 0, 0, 0,
    0, 0, 0, 0, 0, 0, 0, 0, 100⟩

/-- The zero increment stream for the concrete synthesis instances. -/
def incZero : ℕ → ℝ := fun _ => 0

/-- A fresh synthesizer state for the concrete synthesis instances. -/
def st00 : SynthSt := ⟨0, 0⟩

/-- A minimal pipeline environment for the concrete paragraph instances: a
one-letter inventory, empty class sets, the zero table, trivial cluster
reduction, no language rules, zero noise, turbo off. -/
def env0 : PipelineEnv :=
  ⟨fun c => c == 'a', fun _ => false, fun _ => false, fun _ => false,
    zeroTbl, fun t => [t], [], incZero, false⟩

/-! ## Theorems -/

/-- Python truncation agrees with the floor on non-negative input. -/
theorem pyInt_of_nonneg {K : Type} [LinearOrderedField K] [FloorRing K]
    {x : K} (h : 0 ≤ x) : pyInt x = ⌊x⌋ := if_pos h

/-- C7: for every non-negative millisecond count m, generateSilence returns
exactly m*10 zero samples and resets the noise accumulator to 0; in
particular 500 milliseconds give exactly 5000 zeros. -/
theorem generateSilence_zeros_and_reset (st : SynthSt) (m : ℕ) :
    (generateSilence st m).1 = List.replicate (m * 10) 0 ∧
      (generateSilence st m).2.noise = 0 ∧
      (generateSilence st 500).1 = List.replicate 5000 0 :=
  ⟨rfl, rfl, rfl⟩

/-- C4, counterexample: with two rules that each append one frame, the later
rule's appended frame ends up adjacent to the current frame, not farther
from it than the earlier rule's: the claimed order [1][3][0][2][4] is not
what applyRules produces. -/
theorem applyRules_append_order_counterexample :
    applyRules
        [fun _ _ _ _ _ f => ([[1]], [[2]], 1, f),
          fun _ _ _ _ _ f => ([[3]], [[4]], 1, f)] ctx0 [[0]] =
      ([[1], [3], [0], [4], [2]], [1, 1, 1, 1, 1]) ∧
      applyRules
          [fun _ _ _ _ _ f => ([[1]], [[2]], 1, f),
            fun _ _ _ _ _ f => ([[3]], [[4]], 1, f)] ctx0 [[0]] ≠
        ([[1], [3], [0], [2], [4]], [1, 1, 1, 1, 1]) :=
  ⟨by norm_num [applyRules, applyRulesAux, applyRulesFrame, List.replicate],
    by norm_num [applyRules, applyRulesAux, applyRulesFrame, List.replicate]⟩

/-- C4, as amended: successive rules accumulate their prepends so that a
later rule's prepends sit nearer the current frame, and their appends so
that a later rule's appends also sit nearer the current frame (new appends
go to the front of the following list); the f0 contributions multiply and
are broadcast over every frame the chain introduced. -/
theorem applyRules_accumulation_order (r1 r2 : Rule) (ctx : RuleCtx)
    (f f1 f2 : Frame) (p1 q1 p2 q2 : List Frame) (m1 m2 : ℚ)
    (h1 : r1 ctx [] 0 [] [] f = (p1, q1, m1, f1))
    (h2 : r2 ctx [] 0 p1 q1 f1 = (p2, q2, m2, f2)) :
    applyRules [r1, r2] ctx [f] =
      (p1 ++ p2 ++ [f2] ++ (q2 ++ q1),
        List.replicate (p1.length + p2.length + 1 + (q2.length + q1.length))
          (m1 * m2)) := by
  simp [applyRules, applyRulesAux, applyRulesFrame, h1, h2, Nat.add_assoc]

/-- C4 witness: the amended accumulation order at two concrete rules. -/
theorem applyRules_accumulation_order_witness :
    applyRules
        [fun _ _ _ _ _ _ => ([[1]], [[2]], 2, [5]),
          fun _ _ _ _ _ _ => ([[3]], [[4]], 3, [6])] ctx0 [[0]] =
      ([[1], [3], [6], [4], [2]], [6, 6, 6, 6, 6]) := by
  have h := applyRules_accumulation_order
    (fun _ _ _ _ _ _ => ([[1]], [[2]], 2, [5]))
    (fun _ _ _ _ _ _ => ([[3]], [[4]], 3, [6])) ctx0 [0] [5] [6]
    [[1]] [[2]] [[3]] [[4]] 2 3 rfl rfl
  exact h.trans (by norm_num [List.replicate])

/-- C2, counterexample: a 100 millisecond vowel before a nasal splits into
three frames of 50, 16 and 33 milliseconds, summing to 99, not to the
original 100. -/
theorem nasalizeVowel_duration_sum_counterexample :
    (((nasalizeVowel (fun p => p == ['a']) (fun p => p == ['n']) zeroTbl
            ['a'] [['n']] [vowel100]).map
          (fun f => f.getD 32 0)).sum = 99 ∧ (99 : ℚ) ≠ 100) ∧
      (nasalizeVowel (fun p => p == ['a']) (fun p => p == ['n']) zeroTbl
          ['a'] [['n']] [vowel100]).length = 3 :=
  ⟨⟨by norm_num [nasalizeVowel, zeroTbl, vowel100, blend21, blend12, pyInt,
        List.replicate, show ('a' : Char) ≠ 'n' by decide],
      by norm_num⟩,
    by norm_num [nasalizeVowel, zeroTbl, vowel100,
      show ('a' : Char) ≠ 'n' by decide]⟩

/-- C2, as amended: a non-nasal vowel whose next phoneme is nasal is
replaced by exactly three frames, the original values at int(d*0.5)
milliseconds, a 2:1 vowel/nasal blend at int(d*0.167) and a 1:2 blend at
int(d*0.333); the three durations sum to at most the original duration
(truncation can lose milliseconds). -/
theorem nasalizeVowel_splits_three_frames (vs ns : Phon → Bool)
    (tbl : Phon → List ℚ) (c : Phon) (following : List Phon) (vowel : Frame)
    (rest : List Frame) (k : ℤ) (hf : following ≠ [])
    (hn : ns (following.headD []) = true) (hv : vs c = true)
    (hnn : ns c = false) (hd : vowel.getD 32 0 = (k : ℚ)) (hk : 0 ≤ k) :
    nasalizeVowel vs ns tbl c following (vowel :: rest) =
      (vowel.take 32 ++ [((pyInt ((k : ℚ) * (1 / 2)) : ℤ) : ℚ)]) ::
        (blend21 (vowel.take 32) ((tbl (following.headD [])).take 32) ++
          [((pyInt ((k : ℚ) * (167 / 1000)) : ℤ) : ℚ)]) ::
        (blend12 (vowel.take 32) ((tbl (following.headD [])).take 32) ++
          [((pyInt ((k : ℚ) * (333 / 1000)) : ℤ) : ℚ)]) :: rest ∧
      pyInt ((k : ℚ) * (1 / 2)) + pyInt ((k : ℚ) * (167 / 1000)) +
          pyInt ((k : ℚ) * (333 / 1000)) ≤ k := by
  have hk0 : (0 : ℚ) ≤ (k : ℚ) := by exact_mod_cast hk
  have hn2 : ns (following.head?.getD []) = true := by simpa using hn
  have hd2 : vowel[32]?.getD 0 = (k : ℚ) := by simpa [List.getD] using hd
  constructor
  · simp [nasalizeVowel, hf, hn2, hv, hnn, hd2]
  · have e1 : pyInt ((k : ℚ) * (1 / 2)) = ⌊(k : ℚ) * (1 / 2)⌋ :=
      pyInt_of_nonneg (by positivity)
    have e2 : pyInt ((k : ℚ) * (167 / 1000)) = ⌊(k : ℚ) * (167 / 1000)⌋ :=
      pyInt_of_nonneg (by positivity)
    have e3 : pyInt ((k : ℚ) * (333 / 1000)) = ⌊(k : ℚ) * (333 / 1000)⌋ :=
      pyInt_of_nonneg (by positivity)
    rw [e1, e2, e3]
    have b1 := Int.floor_le ((k : ℚ) * (1 / 2))
    have b2 := Int.floor_le ((k : ℚ) * (167 / 1000))
    have b3 := Int.floor_le ((k : ℚ) * (333 / 1000))
    have : ((⌊(k : ℚ) * (1 / 2)⌋ + ⌊(k : ℚ) * (167 / 1000)⌋ +
        ⌊(k : ℚ) * (333 / 1000)⌋ : ℤ) : ℚ) ≤ (k : ℚ) := by
      push_cast
      linarith
    exact_mod_cast this

/-- C2 witness: the amended split at the concrete 100 millisecond vowel. -/
theorem nasalizeVowel_splits_three_frames_witness :
    pyInt ((((100 : ℤ) : ℚ)) * (1 / 2)) +
        pyInt ((((100 : ℤ) : ℚ)) * (167 / 1000)) +
        pyInt ((((100 : ℤ) : ℚ)) * (333 / 1000)) ≤ (100 : ℤ) :=
  (nasalizeVowel_splits_three_frames (fun p => p == ['a'])
    (fun p => p == ['n']) zeroTbl ['a'] [['n']] vowel100 []
    100 (by decide) (by decide) (by decide) (by decide)
    (by simp [vowel100]) (by decide)).2

/-- Every clipped sample lies in the signed 16-bit range. -/
theorem clip_bounds {K : Type} [LinearOrderedField K] [FloorRing K]
    (x : K) : -32768 ≤ clip x ∧ clip x ≤ 32767 := by
  simp only [clip]
  split
  · exact ⟨by norm_num, le_refl _⟩
  · split
    · exact ⟨le_refl _, by norm_num⟩
    · next h1 h2 => exact ⟨by omega, by omega⟩

section LoopLemmas

variable {K St : Type} [LinearOrderedField K] [FloorRing K]

/-- runOuts produces exactly the requested number of samples. -/
theorem runOuts_length (step : St → St × K) :
    ∀ (n : ℕ) (st : St), ((runOuts step n st).1).length = n := by
  intro n
  induction n with
  | zero => intro st; rfl
  | succ n ih => intro st; simp [runOuts, ih]

/-- Every sample runOuts produces is a clipped value. -/
theorem runOuts_mem (step : St → St × K) :
    ∀ (n : ℕ) (st : St) (x : ℤ), x ∈ (runOuts step n st).1 →
      ∃ y : K, x = clip y := by
  intro n
  induction n with
  | zero => intro st x hx; simp [runOuts] at hx
  | succ n ih =>
    intro st x hx
    simp only [runOuts, List.mem_cons] at hx
    rcases hx with h | h
    · exact ⟨(step st).2, h⟩
    · exact ih _ _ h

/-- Length of a repeated list. -/
theorem repList_length (s : List ℤ) : ∀ m, (repList s m).length = m * s.length := by
  intro m
  induction m with
  | zero => simp [repList]
  | succ m ih => simp [repList, ih, Nat.succ_mul, Nat.add_comm]

/-- Every element of a repeated list comes from the base list. -/
theorem repList_mem (s : List ℤ) :
    ∀ (m : ℕ) (x : ℤ), x ∈ repList s m → x ∈ s := by
  intro m
  induction m with
  | zero => intro x hx; simp [repList] at hx
  | succ m ih =>
    intro x hx
    rcases List.mem_append.1 hx with h | h
    · exact h
    · exact ih x h

/-- A repeated list reads back cyclically. -/
theorem repList_getD (s : List ℤ) :
    ∀ (m i : ℕ), i < m * s.length →
      (repList s m).getD i 0 = s.getD (i % s.length) 0 := by
  intro m
  induction m with
  | zero => intro i hi; rw [Nat.zero_mul] at hi; omega
  | succ m ih =>
    intro i hi
    rcases lt_or_le i s.length with h | h
    · rw [repList, List.getD_append _ _ _ _ h, Nat.mod_eq_of_lt h]
    · have hsm : (m + 1) * s.length = m * s.length + s.length :=
        Nat.succ_mul m s.length
      have hi2 : i - s.length < m * s.length := by omega
      rw [repList, List.getD_append_right _ _ _ _ h,
        Nat.mod_eq_sub_mod h, ih _ hi2]

/-- Doubling a list doubles the repetition count. -/
theorem repList_doubling (s : List ℤ) :
    ∀ m, repList (s ++ s) m = repList s (2 * m) := by
  intro m
  induction m with
  | zero => rfl
  | succ m ih =>
    have h2 : 2 * (m + 1) = (2 * m + 1) + 1 := by omega
    rw [repList, ih, h2, repList, repList, List.append_assoc]

/-- The doubling loop returns some positive repetition of its input. -/
theorem doubleWhile_spec :
    ∀ (f : ℕ) (s : List ℤ) (t : ℤ), ∃ m, 1 ≤ m ∧
      doubleWhile f s t = repList s m := by
  intro f
  induction f with
  | zero =>
    intro s t
    exact ⟨1, le_refl _, by simp [doubleWhile, repList]⟩
  | succ f ih =>
    intro s t
    rw [doubleWhile]
    split
    · obtain ⟨m, hm, he⟩ := ih (s ++ s) t
      exact ⟨2 * m, by omega, by rw [he, repList_doubling]⟩
    · exact ⟨1, le_refl _, by simp [repList]⟩

/-- The doubling loop never exceeds the target length when it starts below
it. -/
theorem doubleWhile_length_le :
    ∀ (f : ℕ) (s : List ℤ) (t : ℤ), (s.length : ℤ) ≤ t →
      ((doubleWhile f s t).length : ℤ) ≤ t := by
  intro f
  induction f with
  | zero => intro s t h; exact h
  | succ f ih =>
    intro s t h
    rw [doubleWhile]
    split
    · next hc =>
      apply ih
      rw [List.length_append]
      push_cast
      omega
    · exact h

/-- With enough fuel the doubling loop reaches the stop condition: twice
the final length covers the target. -/
theorem doubleWhile_stop :
    ∀ (f : ℕ) (s : List ℤ) (t : ℤ), 1 ≤ s.length →
      t ≤ 2 ^ f * (s.length : ℤ) →
      t ≤ 2 * ((doubleWhile f s t).length : ℤ) := by
  intro f
  induction f with
  | zero =>
    intro s t h1 h2
    rw [doubleWhile]
    have e : (2 : ℤ) ^ 0 * (s.length : ℤ) = (s.length : ℤ) := by ring
    omega
  | succ f ih =>
    intro s t h1 h2
    rw [doubleWhile]
    split
    · next hc =>
      have hlen : 1 ≤ (s ++ s).length := by rw [List.length_append]; omega
      apply ih (s ++ s) t hlen
      have e1 : ((s ++ s).length : ℤ) = 2 * (s.length : ℤ) := by
        rw [List.length_append]; push_cast; ring
      rw [e1]
      calc t ≤ 2 ^ (f + 1) * (s.length : ℤ) := h2
        _ = 2 ^ f * (2 * (s.length : ℤ)) := by ring
    · next hc => omega

/-- Elements of the doubled list come from the base list. -/
theorem doubleWhile_mem :
    ∀ (f : ℕ) (s : List ℤ) (t : ℤ) (x : ℤ),
      x ∈ doubleWhile f s t → x ∈ s := by
  intro f
  induction f with
  | zero => intro s t x hx; exact hx
  | succ f ih =>
    intro s t x hx
    rw [doubleWhile] at hx
    split at hx
    · rcases List.mem_append.1 (ih _ _ _ hx) with h | h <;> exact h
    · exact hx

/-- Elements of the tiled buffer come from the base buffer. -/
theorem tile_mem (s : List ℤ) (t : ℤ) (x : ℤ) (hx : x ∈ tile s t) :
    x ∈ s := by
  rw [tile] at hx
  rcases List.mem_append.1 hx with h | h
  · exact doubleWhile_mem _ _ _ _ h
  · apply doubleWhile_mem _ _ _ x
    rw [pySliceTo] at h
    split at h <;> exact List.take_subset _ _ h

/-- Reading below the cut of a take is reading the original list. -/
theorem getD_take {α : Type} (l : List α) (k j : ℕ) (d : α) (h : j < k) :
    (l.take k).getD j d = l.getD j d := by
  simp [List.getD, List.getElem?_take, h]

/-- With fuel taken from the target itself, the doubling loop always reaches
its stop condition on a nonempty list. -/
theorem doubleWhile_stop_fuel (s : List ℤ) (t : ℤ) (h1 : 1 ≤ s.length) :
    t ≤ 2 * ((doubleWhile t.toNat s t).length : ℤ) := by
  apply doubleWhile_stop t.toNat s t h1
  have h3 : t ≤ (2 : ℤ) ^ t.toNat := by
    rcases le_or_lt t 0 with ht | ht
    · exact le_trans ht (by positivity)
    · have hp : t.toNat < 2 ^ t.toNat := Nat.lt_two_pow _
      calc t = (t.toNat : ℤ) := by omega
        _ ≤ ((2 ^ t.toNat : ℕ) : ℤ) := by exact_mod_cast hp.le
        _ = (2 : ℤ) ^ t.toNat := by push_cast; rfl
  calc t ≤ (2 : ℤ) ^ t.toNat := h3
    _ = 2 ^ t.toNat * 1 := by ring
    _ ≤ 2 ^ t.toNat * (s.length : ℤ) := by
        apply mul_le_mul_of_nonneg_left _ (by positivity)
        exact_mod_cast h1

/-- Under the turbo preconditions, the tiled buffer has exactly the target
length. -/
theorem tile_length (s : List ℤ) (t : ℤ) (h1 : 1 ≤ s.length)
    (h2 : (s.length : ℤ) ≤ t) : ((tile s t).length : ℤ) = t := by
  have hdl : ((doubleWhile t.toNat s t).length : ℤ) ≤ t :=
    doubleWhile_length_le _ s t h2
  have hstop := doubleWhile_stop_fuel s t h1
  rw [tile, pySliceTo, if_pos (by omega :
    (0 : ℤ) ≤ t - (doubleWhile t.toNat s t).length)]
  rw [List.length_append, List.length_take]
  push_cast
  omega

/-- Under the turbo preconditions, the tiled buffer reads back as a cyclic
repetition of the short buffer. -/
theorem tile_getD (s : List ℤ) (t : ℤ) (h1 : 1 ≤ s.length)
    (h2 : (s.length : ℤ) ≤ t) (i : ℕ) (hi : (i : ℤ) < t) :
    (tile s t).getD i 0 = s.getD (i % s.length) 0 := by
  obtain ⟨m, hm, hd⟩ := doubleWhile_spec t.toNat s t
  have hdl : ((doubleWhile t.toNat s t).length : ℤ) ≤ t :=
    doubleWhile_length_le _ s t h2
  have hstop := doubleWhile_stop_fuel s t h1
  have hlen : (doubleWhile t.toNat s t).length = m * s.length := by
    rw [hd, repList_length]
  rw [tile, pySliceTo, if_pos (by omega :
    (0 : ℤ) ≤ t - (doubleWhile t.toNat s t).length)]
  rcases lt_or_le i (doubleWhile t.toNat s t).length with h | h
  · rw [List.getD_append _ _ _ _ h, hd, repList_getD s m i (by omega)]
  · have hrl : (repList s m).length = m * s.length := repList_length s m
    rw [List.getD_append_right _ _ _ _ h, getD_take _ _ _ _ (by omega),
      hd, repList_getD s m _ (by omega)]
    rw [hrl, Nat.mul_comm m s.length,
      Nat.sub_mul_mod (by rw [Nat.mul_comm]; omega)]

/-- Everything the sample loop emits is either carried over or clipped. -/
theorem synthLoop_mem (step : St → St × K) (turbo : Bool) (T L : ℤ) :
    ∀ (r t : ℕ) (st : St) (sounds : List ℤ) (x : ℤ),
      x ∈ (synthLoop step turbo T L r t st sounds).1 →
      x ∈ sounds ∨ ∃ y : K, x = clip y := by
  intro r
  induction r with
  | zero => intro t st sounds x hx; exact Or.inl hx
  | succ r ih =>
    intro t st sounds x hx
    simp only [synthLoop] at hx
    by_cases hL : L ≤ (t : ℤ)
    · rw [if_pos hL] at hx
      by_cases htr : turbo = true ∧ (t : ℤ) = 2 * L - 1
      · rw [if_pos htr] at hx
        have hs := tile_mem _ _ _ hx
        rcases List.mem_append.1 hs with h | h
        · exact Or.inl h
        · simp only [List.mem_singleton] at h
          exact Or.inr ⟨_, h⟩
      · rw [if_neg htr] at hx
        rcases ih _ _ _ _ hx with h | h
        · rcases List.mem_append.1 h with h | h
          · exact Or.inl h
          · simp only [List.mem_singleton] at h
            exact Or.inr ⟨_, h⟩
        · exact Or.inr h
    · rw [if_neg hL] at hx
      exact ih _ _ _ _ hx

/-- Warm-up phase: while the tick is below f0_hz the loop only advances the
state. -/
theorem synthLoop_skip (step : St → St × K) (turbo : Bool) (T L : ℤ) :
    ∀ (k n t : ℕ) (st : St) (sounds : List ℤ),
      ((t + k : ℕ) : ℤ) ≤ L →
      synthLoop step turbo T L (k + n) t st sounds =
        synthLoop step turbo T L n (t + k) (advance step k st) sounds := by
  intro k
  induction k with
  | zero => intro n t st sounds h; simp [advance]
  | succ k ih =>
    intro n t st sounds h
    have e : k + 1 + n = (k + n) + 1 := by omega
    rw [e]
    simp only [synthLoop]
    have hL : ¬ (L ≤ (t : ℤ)) := by
      push_cast at h
      omega
    rw [if_neg hL]
    rw [ih n (t + 1) (step st).1 sounds (by push_cast at h ⊢; omega)]
    have e2 : t + 1 + k = t + (k + 1) := by omega
    rw [e2]
    rfl

/-- Real phase without a turbo break: the loop appends exactly the run of
clipped outputs. -/
theorem synthLoop_run_noBreak (step : St → St × K) (turbo : Bool) (T L : ℤ) :
    ∀ (n t : ℕ) (st : St) (sounds : List ℤ),
      L ≤ (t : ℤ) →
      (turbo = true → ∀ j, j < n → ((t + j : ℕ) : ℤ) ≠ 2 * L - 1) →
      synthLoop step turbo T L n t st sounds =
        (sounds ++ (runOuts step n st).1, (runOuts step n st).2) := by
  intro n
  induction n with
  | zero => intro t st sounds hL hnb; simp [synthLoop, runOuts]
  | succ n ih =>
    intro t st sounds hL hnb
    simp only [synthLoop]
    rw [if_pos hL]
    have htr : ¬ (turbo = true ∧ (t : ℤ) = 2 * L - 1) := by
      rintro ⟨ht, he⟩
      exact hnb ht 0 (by omega) (by push_cast; omega)
    rw [if_neg htr]
    rw [ih (t + 1) (step st).1 (sounds ++ [clip (step st).2])
      (by push_cast; omega)
      (fun ht j hj => by
        have := hnb ht (j + 1) (by omega)
        push_cast at this ⊢
        omega)]
    simp [runOuts, List.append_assoc]

/-- Real phase with the turbo break at tick 2*f0_hz - 1: the loop tiles the
buffer gathered since the warm-up ended. -/
theorem synthLoop_run_break (step : St → St × K) (T L : ℤ) :
    ∀ (j n t : ℕ) (st : St) (sounds : List ℤ),
      L ≤ (t : ℤ) → j < n → ((t + j : ℕ) : ℤ) = 2 * L - 1 →
      synthLoop step true T L n t st sounds =
        (tile (sounds ++ (runOuts step (j + 1) st).1) T,
          (runOuts step (j + 1) st).2) := by
  intro j
  induction j with
  | zero =>
    intro n t st sounds hL hj he
    cases n with
    | zero => omega
    | succ n =>
      simp only [synthLoop]
      rw [if_pos hL]
      have he2 : (t : ℤ) = 2 * L - 1 := by push_cast at he; omega
      rw [if_pos ⟨trivial, he2⟩]
      simp [runOuts]
  | succ j ih =>
    intro n t st sounds hL hj he
    cases n with
    | zero => omega
    | succ n =>
      simp only [synthLoop]
      rw [if_pos hL]
      have hne : ¬ (True ∧ (t : ℤ) = 2 * L - 1) := by
        rintro ⟨_, h2⟩
        push_cast at he
        omega
      rw [if_neg hne]
      rw [ih n (t + 1) (step st).1 (sounds ++ [clip (step st).2])
        (by push_cast; omega) (by omega) (by push_cast at he ⊢; omega)]
      simp [runOuts, List.append_assoc]

end LoopLemmas

/-- Unpacking a 33-element parameter sequence reaches the synthesis core. -/
theorem synthesize_unpack (inc : ℕ → ℝ) (st0 : SynthSt)
    (x0 x1 x2 x3 x4 x5 x6 x7 x8 x9 x10 x11 x12 x13 x14 x15 x16 x17 x18 x19
      x20 x21 x22 x23 x24 x25 x26 x27 x28 x29 x30 x31 x32 f0m : ℚ)
    (turbo : Bool) :
    synthesize inc st0
        (x0 :: x1 :: x2 :: x3 :: x4 :: x5 :: x6 :: x7 :: x8 :: x9 :: x10 ::
            x11 :: x12 :: x13 :: x14 :: x15 :: x16 :: x17 :: x18 :: x19 ::
            x20 :: x21 :: x22 :: x23 :: x24 :: x25 :: x26 :: x27 :: x28 ::
            x29 :: x30 :: x31 :: x32 :: []) f0m turbo =
      synthCore inc st0
        ⟨x0, x1, x2, x3, x4, x5, x6, x7, x8, x9, x10, x11, x12, x13, x14,
          x15, x16, x17, x18, x19, x20, x21, x22, x23, x24, x25, x26, x27,
          x28, x29, x30, x31, x32⟩ f0m turbo := rfl

/-- The shape of every synthesize call: after the warm-up period, either the
turbo break tiles the one period of real output gathered so far, or the
loop returns the full run of samples_target clipped outputs. -/
theorem synthCore_eq (inc : ℕ → ℝ) (st0 : SynthSt) (p : Params33)
    (f0m : ℚ) (turbo : Bool) (hL : 0 ≤ f0Hz f0m)
    (hT : 0 ≤ samplesTarget p.milliseconds) :
    (synthCore inc st0 p f0m turbo).1 =
      if turbo = true ∧ 1 ≤ f0Hz f0m ∧
          f0Hz f0m ≤ samplesTarget p.milliseconds then
        tile (turboBuffer inc st0 p f0m) (samplesTarget p.milliseconds)
      else
        (runOuts (synthStepOf inc p f0m)
          (samplesTarget p.milliseconds).toNat
          (advance (synthStepOf inc p f0m) (f0Hz f0m).toNat
            (initK p (f0Hz f0m) st0))).1 := by
  simp only [synthCore, turboBuffer]
  have hN : (samplesTarget p.milliseconds + f0Hz f0m).toNat =
      (f0Hz f0m).toNat + (samplesTarget p.milliseconds).toNat := by omega
  rw [hN, synthLoop_skip (synthStepOf inc p f0m) turbo _ _ (f0Hz f0m).toNat
    (samplesTarget p.milliseconds).toNat 0 _ [] (by omega), Nat.zero_add]
  by_cases hc : turbo = true ∧ 1 ≤ f0Hz f0m ∧
      f0Hz f0m ≤ samplesTarget p.milliseconds
  · rw [if_pos hc]
    obtain ⟨ht, h1, h2⟩ := hc
    subst ht
    rw [synthLoop_run_break (synthStepOf inc p f0m) _ _
      ((f0Hz f0m).toNat - 1) _ _ _ _ (by omega) (by omega) (by omega)]
    have hj1 : (f0Hz f0m).toNat - 1 + 1 = (f0Hz f0m).toNat := by omega
    rw [hj1, List.nil_append]
  · rw [if_neg hc]
    rcases eq_or_ne turbo true with ht | ht
    · have hnc : ¬ (1 ≤ f0Hz f0m ∧
          f0Hz f0m ≤ samplesTarget p.milliseconds) := fun h => hc ⟨ht, h⟩
      have hTL : samplesTarget p.milliseconds < f0Hz f0m ∨ f0Hz f0m = 0 := by
        by_contra hh
        push_neg at hh
        exact hnc ⟨by omega, by omega⟩
      rw [synthLoop_run_noBreak (synthStepOf inc p f0m) turbo _ _ _ _ _ _
        (by omega) (fun _ j hj => by omega), List.nil_append]
    · rw [synthLoop_run_noBreak (synthStepOf inc p f0m) turbo _ _ _ _ _ _
        (by omega) (fun h2 _ _ => absurd h2 ht), List.nil_append]

/-- C1: whatever the 33 parameter values, the f0 multiplier, the turbo flag
and the noise stream, every sample synthesize returns lies in the signed
16-bit range. -/
theorem synthesize_output_in_int16_range (inc : ℕ → ℝ) (st0 : SynthSt)
    (parameters : List ℚ) (f0m : ℚ) (turbo : Bool) :
    List.Forall (fun s => -32768 ≤ s ∧ s ≤ 32767)
      (synthesize inc st0 parameters f0m turbo).1 := by
  rw [List.forall_iff_forall_mem]
  intro x hx
  unfold synthesize at hx
  split at hx
  · simp only [synthCore] at hx
    rcases synthLoop_mem _ _ _ _ _ _ _ _ _ hx with h | ⟨y, hy⟩
    · simp at h
    · subst hy
      exact clip_bounds y
  · simp at hx

set_option maxHeartbeats 1600000 in
/-- C5: a turbo call on a 33-field set with non-negative duration and a
positive f0 multiplier returns exactly samples_target samples, and beyond
index 2*f0_hz the output repeats with period 2*f0_hz (indeed already with
period f0_hz). -/
theorem synthesize_turbo_length_and_cyclic
    (x0 x1 x2 x3 x4 x5 x6 x7 x8 x9 x10 x11 x12 x13 x14 x15 x16 x17 x18 x19
      x20 x21 x22 x23 x24 x25 x26 x27 x28 x29 x30 x31 x32 f0m : ℚ)
    (inc : ℕ → ℝ) (st0 : SynthSt) (hf : 0 < f0m) (hms : 0 ≤ x32) :
    (((synthesize inc st0
          (x0 :: x1 :: x2 :: x3 :: x4 :: x5 :: x6 :: x7 :: x8 :: x9 :: x10 ::
            x11 :: x12 :: x13 :: x14 :: x15 :: x16 :: x17 :: x18 :: x19 ::
            x20 :: x21 :: x22 :: x23 :: x24 :: x25 :: x26 :: x27 :: x28 ::
            x29 :: x30 :: x31 :: x32 :: []) f0m true).1.length : ℤ) =
        samplesTarget x32) ∧
      ∀ i : ℕ, 2 * f0Hz f0m ≤ (i : ℤ) → (i : ℤ) < samplesTarget x32 →
        (synthesize inc st0
            (x0 :: x1 :: x2 :: x3 :: x4 :: x5 :: x6 :: x7 :: x8 :: x9 :: x10 ::
            x11 :: x12 :: x13 :: x14 :: x15 :: x16 :: x17 :: x18 :: x19 ::
            x20 :: x21 :: x22 :: x23 :: x24 :: x25 :: x26 :: x27 :: x28 ::
            x29 :: x30 :: x31 :: x32 :: []) f0m true).1.getD i 0 =
          (synthesize inc st0
              (x0 :: x1 :: x2 :: x3 :: x4 :: x5 :: x6 :: x7 :: x8 :: x9 :: x10 ::
            x11 :: x12 :: x13 :: x14 :: x15 :: x16 :: x17 :: x18 :: x19 ::
            x20 :: x21 :: x22 :: x23 :: x24 :: x25 :: x26 :: x27 :: x28 ::
            x29 :: x30 :: x31 :: x32 :: []) f0m true).1.getD
            (i % (2 * f0Hz f0m).toNat) 0 := by
  have h80 : (0 : ℚ) ≤ 80 * f0m := by positivity
  have hL : 0 ≤ f0Hz f0m := by
    rw [f0Hz, pyInt_of_nonneg h80]
    exact Int.floor_nonneg.2 h80
  have hx10 : (0 : ℚ) ≤ x32 * 10 := by positivity
  have hT : 0 ≤ samplesTarget x32 := by
    rw [samplesTarget, pyInt_of_nonneg hx10]
    exact Int.floor_nonneg.2 hx10
  rw [synthesize_unpack, synthCore_eq inc st0 _ f0m true hL hT]
  dsimp only
  by_cases hc : (true = true) ∧ 1 ≤ f0Hz f0m ∧
      f0Hz f0m ≤ samplesTarget x32
  · rw [if_pos hc]
    have hlen : (turboBuffer inc st0
        ⟨x0, x1, x2, x3, x4, x5, x6, x7, x8, x9, x10, x11, x12, x13, x14,
          x15, x16, x17, x18, x19, x20, x21, x22, x23, x24, x25, x26, x27,
          x28, x29, x30, x31, x32⟩ f0m).length = (f0Hz f0m).toNat := by
      simp only [turboBuffer]
      rw [runOuts_length]
    obtain ⟨-, h1, h2⟩ := hc
    constructor
    · rw [tile_length _ _ (by omega) (by omega)]
    · intro i h2L hiT
      have hmle := Nat.mod_le i ((2 * f0Hz f0m).toNat)
      rw [tile_getD _ _ (by omega) (by omega) i (by omega),
        tile_getD _ _ (by omega) (by omega) (i % (2 * f0Hz f0m).toNat)
          (by omega)]
      rw [hlen]
      have h2L2 : (2 * f0Hz f0m).toNat = 2 * (f0Hz f0m).toNat := by omega
      rw [h2L2, Nat.mod_mod_of_dvd i ⟨2, by ring⟩]
  · rw [if_neg hc]
    have hnc : ¬ (1 ≤ f0Hz f0m ∧ f0Hz f0m ≤ samplesTarget x32) :=
      fun h => hc ⟨rfl, h⟩
    constructor
    · rw [runOuts_length]
      omega
    · intro i h2L hiT
      rcases le_or_lt (f0Hz f0m) 0 with h0 | h1
      · have hz : f0Hz f0m = 0 := by omega
        rw [hz]
        norm_num
      · have hTL : samplesTarget x32 < f0Hz f0m := by
          by_contra hh
          push_neg at hh
          exact hnc ⟨h1, hh⟩
        omega

/-- C5 witness: the all-zero 100 millisecond set at f0 multiplier 1, with
period check at sample 200. -/
theorem synthesize_turbo_length_and_cyclic_witness :
    (((synthesize incZero st00
          ((0:ℚ) :: 0 :: 0 :: 0 :: 0 :: 0 :: 0 :: 0 :: 0 :: 0 :: 0 :: 0 :: 0 ::
            0 :: 0 :: 0 :: 0 :: 0 :: 0 :: 0 :: 0 :: 0 :: 0 :: 0 :: 0 :: 0 ::
            0 :: 0 :: 0 :: 0 :: 0 :: 0 :: 100 :: []) 1 true).1.length : ℤ) =
        samplesTarget 100) ∧
      (synthesize incZero st00
          ((0:ℚ) :: 0 :: 0 :: 0 :: 0 :: 0 :: 0 :: 0 :: 0 :: 0 :: 0 :: 0 :: 0 ::
            0 :: 0 :: 0 :: 0 :: 0 :: 0 :: 0 :: 0 :: 0 :: 0 :: 0 :: 0 :: 0 ::
            0 :: 0 :: 0 :: 0 :: 0 :: 0 :: 100 :: []) 1 true).1.getD 200 0 =
        (synthesize incZero st00
            ((0:ℚ) :: 0 :: 0 :: 0 :: 0 :: 0 :: 0 :: 0 :: 0 :: 0 :: 0 :: 0 ::
              0 :: 0 :: 0 :: 0 :: 0 :: 0 :: 0 :: 0 :: 0 :: 0 :: 0 :: 0 ::
              0 :: 0 :: 0 :: 0 :: 0 :: 0 :: 0 :: 0 :: 100 :: []) 1
            true).1.getD
          (200 % (2 * f0Hz 1).toNat) 0 := by
  have h := synthesize_turbo_length_and_cyclic 0 0 0 0 0 0 0 0 0 0 0 0 0 0
    0 0 0 0 0 0 0 0 0 0 0 0 0 0 0 0 0 0 100 1 incZero st00 (by norm_num)
    (by norm_num)
  exact ⟨h.1, h.2 200 (by norm_num [f0Hz, pyInt])
    (by norm_num [samplesTarget, pyInt])⟩

set_option maxHeartbeats 1600000 in
/-- C6, as amended: when the turbo break fires (f0_hz between 1 and the
sample target), synthesize returns the tiled short buffer, and that buffer
holds exactly one pitch period (f0_hz samples) of real output at the
moment tiling begins: of the two periods computed by then, the first was
the discarded warm-up. -/
theorem turbo_buffer_one_period
    (x0 x1 x2 x3 x4 x5 x6 x7 x8 x9 x10 x11 x12 x13 x14 x15 x16 x17 x18 x19
      x20 x21 x22 x23 x24 x25 x26 x27 x28 x29 x30 x31 x32 f0m : ℚ)
    (inc : ℕ → ℝ) (st0 : SynthSt) (h1 : 1 ≤ f0Hz f0m)
    (h2 : f0Hz f0m ≤ samplesTarget x32) :
    (synthesize inc st0
          (x0 :: x1 :: x2 :: x3 :: x4 :: x5 :: x6 :: x7 :: x8 :: x9 :: x10 ::
            x11 :: x12 :: x13 :: x14 :: x15 :: x16 :: x17 :: x18 :: x19 ::
            x20 :: x21 :: x22 :: x23 :: x24 :: x25 :: x26 :: x27 :: x28 ::
            x29 :: x30 :: x31 :: x32 :: []) f0m true).1 =
        tile
          (turboBuffer inc st0
            ⟨x0, x1, x2, x3, x4, x5, x6, x7, x8, x9, x10, x11, x12, x13,
              x14, x15, x16, x17, x18, x19, x20, x21, x22, x23, x24, x25,
              x26, x27, x28, x29, x30, x31, x32⟩ f0m)
          (samplesTarget x32) ∧
      ((turboBuffer inc st0
          ⟨x0, x1, x2, x3, x4, x5, x6, x7, x8, x9, x10, x11, x12, x13, x14,
            x15, x16, x17, x18, x19, x20, x21, x22, x23, x24, x25, x26, x27,
            x28, x29, x30, x31, x32⟩ f0m).length : ℤ) = f0Hz f0m := by
  have hL : 0 ≤ f0Hz f0m := by omega
  have hT : 0 ≤ samplesTarget x32 := by omega
  rw [synthesize_unpack, synthCore_eq inc st0 _ f0m true hL hT]
  dsimp only
  constructor
  · rw [if_pos ⟨rfl, h1, h2⟩]
  · simp only [turboBuffer]
    rw [runOuts_length]
    omega

/-- C6 witness: the amended description at the all-zero 100 millisecond
set. -/
theorem turbo_buffer_one_period_witness :
    (synthesize incZero st00
          ((0:ℚ) :: 0 :: 0 :: 0 :: 0 :: 0 :: 0 :: 0 :: 0 :: 0 :: 0 :: 0 :: 0 ::
            0 :: 0 :: 0 :: 0 :: 0 :: 0 :: 0 :: 0 :: 0 :: 0 :: 0 :: 0 :: 0 ::
            0 :: 0 :: 0 :: 0 :: 0 :: 0 :: 100 :: []) 1 true).1 =
        tile (turboBuffer incZero st00 params100 1) (samplesTarget 100) ∧
      ((turboBuffer incZero st00 params100 1).length : ℤ) = f0Hz 1 := by
  have h := turbo_buffer_one_period 0 0 0 0 0 0 0 0 0 0 0 0 0 0 0 0 0 0 0 0
    0 0 0 0 0 0 0 0 0 0 0 0 100 1 incZero st00
    (by norm_num [f0Hz, pyInt]) (by norm_num [f0Hz, samplesTarget, pyInt])
  exact h

/-- C6, counterexample: at the all-zero 100 millisecond set with f0
multiplier 1, the buffer handed to the tiling step holds f0_hz = 80
samples, one pitch period, not the claimed 2 * 80. -/
theorem turbo_buffer_two_periods_counterexample :
    ((turboBuffer incZero st00 params100 1).length : ℤ) = 80 ∧
      ¬ (((turboBuffer incZero st00 params100 1).length : ℤ) = 2 * 80) ∧
      (synthesize incZero st00
          ((0:ℚ) :: 0 :: 0 :: 0 :: 0 :: 0 :: 0 :: 0 :: 0 :: 0 :: 0 :: 0 :: 0 ::
            0 :: 0 :: 0 :: 0 :: 0 :: 0 :: 0 :: 0 :: 0 :: 0 :: 0 :: 0 :: 0 ::
            0 :: 0 :: 0 :: 0 :: 0 :: 0 :: 100 :: []) 1 true).1 =
        tile (turboBuffer incZero st00 params100 1) (samplesTarget 100) := by
  have hlen : (turboBuffer incZero st00 params100 1).length =
      (f0Hz 1).toNat := by
    simp only [turboBuffer]
    rw [runOuts_length]
  have h80 : f0Hz 1 = 80 := by norm_num [f0Hz, pyInt]
  refine ⟨?_, ?_, ?_⟩
  · rw [hlen, h80]
    rfl
  · rw [hlen, h80]
    norm_num
  · have e : synthesize incZero st00
        ((0:ℚ) :: 0 :: 0 :: 0 :: 0 :: 0 :: 0 :: 0 :: 0 :: 0 :: 0 :: 0 :: 0 ::
          0 :: 0 :: 0 :: 0 :: 0 :: 0 :: 0 :: 0 :: 0 :: 0 :: 0 :: 0 :: 0 ::
          0 :: 0 :: 0 :: 0 :: 0 :: 0 :: 100 :: []) 1 true =
        synthCore incZero st00 params100 1 true := rfl
    rw [e, synthCore_eq incZero st00 params100 1 true (by omega)
      (by norm_num [samplesTarget, pyInt, params100])]
    dsimp only [params100]
    rw [if_pos ⟨rfl, by omega, by norm_num [f0Hz, samplesTarget, pyInt]⟩]

/-- Setting position length l of l ++ [w] (its last position) replaces w. -/
theorem set_concat_length {α : Type} (l : List α) (w y : α) :
    (l ++ [w]).set l.length y = l ++ [y] := by
  induction l with
  | nil => rfl
  | cons a t ih =>
    rw [List.cons_append, List.length_cons, List.set_cons_succ, ih]
    rfl

/-- Taking 32 values of a trimmed 33-value frame gives its acoustic part. -/
theorem trim15_take (v : Frame) (hv : v.length = 33) :
    (trim15 v).take 32 = v.take 32 := by
  have hl : (v.take 32).length = 32 := by simp [hv]
  rw [trim15, List.take_left' hl]

/-- The lead half of shapeContours on a nonempty frame list with a
preceding phoneme: the transition frame lands in front, the old head is
trimmed in place. -/
theorem shapeLead_cons (stops : Phon → Bool) (tbl : Phon → List ℚ)
    (c : Phon) (preceding : List Phon) (v : Frame) (pre : List Frame)
    (h : preceding ≠ []) :
    shapeLead stops tbl c preceding (v :: pre) =
      (if stops c then (tbl ['ʔ']).take 32 ++ [15]
        else blend21 (v.take 32) ((tbl (preceding.getLastD [])).take 32) ++
          [15]) :: trim15 v :: pre := by
  cases hsc : stops c <;> simp [shapeLead, h, hsc]

/-- The lead half does nothing for a word-initial phoneme. -/
theorem shapeLead_skip (stops : Phon → Bool) (tbl : Phon → List ℚ)
    (c : Phon) (preceding : List Phon) (pl : List Frame)
    (h : preceding = []) : shapeLead stops tbl c preceding pl = pl := by
  simp [shapeLead, h]

/-- The tail half of shapeContours when it fires: the last frame is trimmed
in place and the transition frame is appended. -/
theorem shapeTail_concat (vs stops ns : Phon → Bool) (tbl : Phon → List ℚ)
    (c : Phon) (following : List Phon) (front : List Frame) (w : Frame)
    (hf : following ≠ [])
    (hn : ¬ (vs c = true ∧ ns (following.headD []) = true)) :
    shapeTail vs stops ns tbl c following (front ++ [w]) =
      front ++ [trim15 w,
        if stops (following.headD []) then (tbl ['h']).take 32 ++ [15]
        else blend21 (w.take 32) ((tbl (following.headD [])).take 32) ++
          [15]] := by
  have hn2 : ¬ (vs c = true ∧ ns (following.head?.getD []) = true) := by
    simpa using hn
  cases hsf : stops (following.head?.getD []) <;>
    simp [shapeTail, hf, hn2, hsf, set_concat_length, List.getLastD_concat]

/-- The tail half is skipped with no follower or for a vowel directly
followed by a nasal. -/
theorem shapeTail_skip (vs stops ns : Phon → Bool) (tbl : Phon → List ℚ)
    (c : Phon) (following : List Phon) (pl1 : List Frame)
    (h : following = [] ∨ (vs c = true ∧ ns (following.headD []) = true)) :
    shapeTail vs stops ns tbl c following pl1 = pl1 := by
  rcases h with h | ⟨h1, h2⟩
  · simp [shapeTail, h]
  · have h2b : ns (following.head?.getD []) = true := by simpa using h2
    simp [shapeTail, h1, h2b]

/-- C8: with a preceding phoneme, shapeContours trims 15ms (floor 5ms) off
the lead frame and inserts before it a 15ms 2:1 blend of the current lead
frame and the preceding phoneme's entry, or the fixed glottal-stop frame
when the current phoneme is a stop; with a following phoneme it trims the
tail frame and appends a 15ms 2:1 blend toward the follower, or the fixed
h frame when the follower is a stop; and it does no tail shaping at all
when the current phoneme is a vowel directly followed by a nasal (or when
untouched entirely, leaves the list as it was). -/
theorem shapeContours_edge_transitions (vs stops ns : Phon → Bool)
    (tbl : Phon → List ℚ) (c : Phon) (preceding following : List Phon)
    (v w : Frame) (pre pl : List Frame) (hv : v.length = 33) :
    (preceding ≠ [] →
      (following = [] ∨ (vs c = true ∧ ns (following.headD []) = true)) →
      shapeContours vs stops ns tbl c preceding following (v :: pre) =
        (if stops c then (tbl ['ʔ']).take 32 ++ [15]
          else blend21 (v.take 32)
            ((tbl (preceding.getLastD [])).take 32) ++ [15]) ::
          trim15 v :: pre) ∧
    (preceding = [] → following ≠ [] →
      ¬ (vs c = true ∧ ns (following.headD []) = true) →
      shapeContours vs stops ns tbl c preceding following (pre ++ [w]) =
        pre ++ [trim15 w,
          if stops (following.headD []) then (tbl ['h']).take 32 ++ [15]
          else blend21 (w.take 32) ((tbl (following.headD [])).take 32) ++
            [15]]) ∧
    (preceding ≠ [] → following ≠ [] →
      ¬ (vs c = true ∧ ns (following.headD []) = true) →
      shapeContours vs stops ns tbl c preceding following
          (v :: (pre ++ [w])) =
        (if stops c then (tbl ['ʔ']).take 32 ++ [15]
          else blend21 (v.take 32)
            ((tbl (preceding.getLastD [])).take 32) ++ [15]) ::
          trim15 v :: (pre ++ [trim15 w,
            if stops (following.headD []) then (tbl ['h']).take 32 ++ [15]
            else blend21 (w.take 32)
              ((tbl (following.headD [])).take 32) ++ [15]])) ∧
    (preceding ≠ [] → following ≠ [] →
      ¬ (vs c = true ∧ ns (following.headD []) = true) →
      shapeContours vs stops ns tbl c preceding following [v] =
        [(if stops c then (tbl ['ʔ']).take 32 ++ [15]
          else blend21 (v.take 32)
            ((tbl (preceding.getLastD [])).take 32) ++ [15]),
          trim15 (trim15 v),
          if stops (following.headD []) then (tbl ['h']).take 32 ++ [15]
          else blend21 (v.take 32) ((tbl (following.headD [])).take 32) ++
            [15]]) ∧
    (preceding = [] →
      (following = [] ∨ (vs c = true ∧ ns (following.headD []) = true)) →
      shapeContours vs stops ns tbl c preceding following pl = pl) := by
  refine ⟨?_, ?_, ?_, ?_, ?_⟩
  · intro h1 h2
    rw [shapeContours, shapeLead_cons _ _ _ _ _ _ h1,
      shapeTail_skip _ _ _ _ _ _ _ h2]
  · intro h1 h2 h3
    rw [shapeContours, shapeLead_skip _ _ _ _ _ h1,
      shapeTail_concat _ _ _ _ _ _ _ _ h2 h3]
  · intro h1 h2 h3
    rw [shapeContours, shapeLead_cons _ _ _ _ _ _ h1]
    have e : (if stops c then (tbl ['ʔ']).take 32 ++ [15]
        else blend21 (v.take 32)
          ((tbl (preceding.getLastD [])).take 32) ++ [15]) ::
          trim15 v :: (pre ++ [w]) =
        ((if stops c then (tbl ['ʔ']).take 32 ++ [15]
          else blend21 (v.take 32)
            ((tbl (preceding.getLastD [])).take 32) ++ [15]) ::
          trim15 v :: pre) ++ [w] := rfl
    rw [e, shapeTail_concat _ _ _ _ _ _ _ _ h2 h3]
    rfl
  · intro h1 h2 h3
    rw [shapeContours, shapeLead_cons _ _ _ _ _ _ h1]
    have e : (if stops c then (tbl ['ʔ']).take 32 ++ [15]
        else blend21 (v.take 32)
          ((tbl (preceding.getLastD [])).take 32) ++ [15]) ::
          trim15 v :: ([] : List Frame) =
        [(if stops c then (tbl ['ʔ']).take 32 ++ [15]
          else blend21 (v.take 32)
            ((tbl (preceding.getLastD [])).take 32) ++ [15])] ++
          [trim15 v] := rfl
    rw [e, shapeTail_concat _ _ _ _ _ _ _ _ h2 h3, trim15_take v hv]
    rfl
  · intro h1 h2
    rw [shapeContours, shapeLead_skip _ _ _ _ _ h1,
      shapeTail_skip _ _ _ _ _ _ _ h2]

/-- C8 witness: the both-sides shaping at a concrete two-frame list. -/
theorem shapeContours_edge_transitions_witness :
    (shapeContours (fun _ => false) (fun _ => false) (fun _ => false)
        zeroTbl ['a'] [['p']] [['f']]
        (vowel100 :: (([] : List Frame) ++ [vowel100]))).length = 4 := by
  have h := (shapeContours_edge_transitions (fun _ => false)
    (fun _ => false) (fun _ => false) zeroTbl ['a'] [['p']] [['f']]
    vowel100 vowel100 [] [] (by simp [vowel100])).2.2.1
    (by decide) (by decide) (by decide)
  rw [h]
  simp

/-- C3: at a word-initial vowel whose previous word ended in a vowel,
bridgeWords appends the 50 millisecond glottal-pause frame after the
current phoneme's frames instead of inserting it before them (the
consonant branch does insert at the front). -/
theorem bridgeWords_vowel_pause_appended :
    bridgeWords (fun p => p == ['a'] || p == ['e']) bridgeTestTbl ['a'] []
        [['e']] [List.replicate 33 0] =
      [List.replicate 33 0, List.replicate 32 7 ++ [50]] ∧
      bridgeWords (fun p => p == ['a'] || p == ['e']) bridgeTestTbl ['a'] []
          [['e']] [List.replicate 33 0] ≠
        [List.replicate 32 7 ++ [50], List.replicate 33 0] :=
  ⟨by norm_num [bridgeWords, bridgeTestTbl, List.replicate,
      show ('e' : Char) ≠ 'a' by decide],
    by norm_num [bridgeWords, bridgeTestTbl, List.replicate,
      show ('e' : Char) ≠ 'a' by decide]⟩

/-- A good token (matching, no terminal punctuation) is consumed and the
word loop continues; a failing token stops everything with the 1-based word
index counted from the words consumed so far. -/
theorem extractAux_error (P : Char → Bool) :
    ∀ (good : List Token) (bad : Token) (rest : List Token) (n : ℕ)
      (q e : Bool) (words : List (Token × List ℕ)),
      (∀ t ∈ good, ∃ g, matchToken P t = some g ∧
          g.2.2.contains '.' = false ∧ g.2.2.contains '?' = false ∧
          g.2.2.contains '!' = false) →
      matchToken P bad = none →
      extractSentenceAux P (good ++ bad :: rest) n q e words =
        .error (.malformedToken (words.length + good.length + 1) n) := by
  intro good
  induction good with
  | nil =>
    intro bad rest n q e words hg hb
    simp [extractSentenceAux, hb]
  | cons t good ih =>
    intro bad rest n q e words hg hb
    obtain ⟨g, hm, h1, h2, h3⟩ := hg t (by simp)
    rw [List.cons_append]
    rw [extractSentenceAux, hm]
    simp only [h1, h2, h3, Bool.false_eq_true, if_false]
    rw [ih bad rest n _ _ _ (fun x hx => hg x (by simp [hx])) hb]
    simp only [List.length_append, List.length_cons, List.length_nil]
    congr 2
    omega

/-- When extraction succeeds, a token it did not consume (one the grammar
rejects) is still in the remaining queue. -/
theorem extractAux_bad_remaining (P : Char → Bool) (bad : Token)
    (hb : matchToken P bad = none) :
    ∀ (tokens : List Token) (n : ℕ) (q e : Bool)
      (words : List (Token × List ℕ)) (s : Sentence)
      (remaining : List Token), bad ∈ tokens →
      extractSentenceAux P tokens n q e words = .ok (s, remaining) →
      bad ∈ remaining := by
  intro tokens
  induction tokens with
  | nil => intro n q e words s remaining hmem; simp at hmem
  | cons t rest ih =>
    intro n q e words s remaining hmem hok
    rw [extractSentenceAux] at hok
    rcases hg : matchToken P t with - | g
    · rw [hg] at hok
      simp at hok
    · rw [hg] at hok
      have hbt : bad ∈ rest := by
        rcases List.mem_cons.1 hmem with he | he
        · subst he
          rw [hb] at hg
          cases hg
        · exact he
      simp only at hok
      split at hok
      · rcases hok with ⟨⟨-, -⟩⟩ | h
        · exact hbt
      · split at hok
        · rcases hok with ⟨⟨-, -⟩⟩ | h
          · exact hbt
        · split at hok
          · rcases hok with ⟨⟨-, -⟩⟩ | h
            · exact hbt
          · exact ih _ _ _ _ _ _ hbt hok

/-- Successful extraction returns a strictly shorter token queue (at least
one token is consumed), and never a longer one. -/
theorem extractAux_remaining_le (P : Char → Bool) :
    ∀ (tokens : List Token) (n : ℕ) (q e : Bool)
      (words : List (Token × List ℕ)) (s : Sentence)
      (remaining : List Token),
      extractSentenceAux P tokens n q e words = .ok (s, remaining) →
      remaining.length ≤ tokens.length := by
  intro tokens
  induction tokens with
  | nil =>
    intro n q e words s remaining hok
    rw [extractSentenceAux] at hok
    rcases hok with ⟨⟨-, -⟩⟩
    exact le_refl _
  | cons t rest ih =>
    intro n q e words s remaining hok
    rw [extractSentenceAux] at hok
    rcases hg : matchToken P t with - | g
    · rw [hg] at hok
      simp at hok
    · rw [hg] at hok
      simp only at hok
      split at hok
      · rcases hok with ⟨⟨-, -⟩⟩
        simp
      · split at hok
        · rcases hok with ⟨⟨-, -⟩⟩
          simp
        · split at hok
          · rcases hok with ⟨⟨-, -⟩⟩
            simp
          · have := ih _ _ _ _ _ _ hok
            simp
            omega

/-- A grammar-rejected token anywhere in the queue makes the sentence loop
fail: every extraction either hits it or leaves it in the remainder. -/
theorem sentencesOfAux_bad (P : Char → Bool) (bad : Token)
    (hb : matchToken P bad = none) :
    ∀ (fuel : ℕ) (tokens : List Token) (acc : List Sentence),
      bad ∈ tokens → tokens.length ≤ fuel →
      ∃ err, sentencesOfAux P fuel tokens acc = .error err := by
  intro fuel
  induction fuel with
  | zero =>
    intro tokens acc hmem hlen
    rcases tokens with - | ⟨t, rest⟩
    · simp at hmem
    · simp at hlen
  | succ fuel ih =>
    intro tokens acc hmem hlen
    rcases tokens with - | ⟨t, rest⟩
    · simp at hmem
    · rw [sentencesOfAux]
      rcases hex : extractSentence P (t :: rest) (acc.length + 1) with err | s
      · exact ⟨err, rfl⟩
      · have hrem : bad ∈ s.2 :=
          extractAux_bad_remaining P bad hb _ _ _ _ _ _ _ hmem hex
        have hlt : s.2.length < (t :: rest).length := by
          rw [extractSentence] at hex
          rw [extractSentenceAux] at hex
          rcases hg : matchToken P t with - | g
          · rw [hg] at hex
            simp at hex
          · rw [hg] at hex
            simp only at hex
            split at hex
            · rcases hex with ⟨⟨-, -⟩⟩
              simp
            · split at hex
              · rcases hex with ⟨⟨-, -⟩⟩
                simp
              · split at hex
                · rcases hex with ⟨⟨-, -⟩⟩
                  simp
                · have := extractAux_remaining_le P rest _ _ _ _ _ _ hex
                  simp
                  omega
        obtain ⟨err, he⟩ := ih s.2 (acc ++ [s.1]) hrem (by
          simp only [List.length_cons] at hlt hlen
          omega)
        refine ⟨err, ?_⟩
        exact he

/-- C9: a token failing the grammar makes sentence extraction fail with the
malformed-token error carrying the 1-based word index within the sentence
and the 1-based sentence index within the paragraph, and the failure
propagates: a paragraph containing such a token yields no sentence list at
all. -/
theorem extractSentence_malformed_token (P : Char → Bool)
    (good : List Token) (bad : Token) (rest tokens : List Token) (n : ℕ)
    (hg : ∀ t ∈ good, ∃ g, matchToken P t = some g ∧
        g.2.2.contains '.' = false ∧ g.2.2.contains '?' = false ∧
        g.2.2.contains '!' = false)
    (hb : matchToken P bad = none) (hmem : bad ∈ tokens) :
    extractSentence P (good ++ bad :: rest) n =
        .error (.malformedToken (good.length + 1) n) ∧
      ∃ err, sentencesOf P tokens = .error err := by
  constructor
  · rw [extractSentence, extractAux_error P good bad rest n false false []
      hg hb]
    simp
  · exact sentencesOfAux_bad P bad hb tokens.length tokens [] hmem
      (le_refl _)

/-- C9 witness: a bare period after one well-formed word fails as word 2 of
sentence 1 and kills the paragraph. -/
theorem extractSentence_malformed_token_witness :
    extractSentence (fun c => c == 'a') [['a'], ['.']] 1 =
        .error (.malformedToken 2 1) ∧
      ∃ err, sentencesOf (fun c => c == 'a') [['a'], ['.']] = .error err := by
  have h := extractSentence_malformed_token (fun c => c == 'a') [['a']]
    ['.'] [] [['a'], ['.']] 1
    (by
      intro t ht
      rw [List.mem_singleton] at ht
      subst ht
      exact ⟨([], ['a'], []), by decide, by decide, by decide, by decide⟩)
    (by decide) (by decide)
  exact ⟨by simpa using h.1, h.2⟩

/-- Interleaving doubles the segment count. -/
theorem interleaveSil_length (sil : List ℤ) :
    ∀ xs : List (List ℤ), (interleaveSil sil xs).length = 2 * xs.length := by
  intro xs
  induction xs with
  | nil => rfl
  | cons x xs ih => simp [interleaveSil, ih]; omega

/-- Every odd slot of the interleaving is the silence segment. -/
theorem interleaveSil_getD_odd (sil : List ℤ) :
    ∀ (xs : List (List ℤ)) (i : ℕ), i < xs.length →
      (interleaveSil sil xs).getD (2 * i + 1) [] = sil := by
  intro xs
  induction xs with
  | nil => intro i hi; simp at hi
  | cons x xs ih =>
    intro i hi
    cases i with
    | zero => rfl
    | succ i =>
      have e : 2 * (i + 1) + 1 = (2 * i + 1) + 1 + 1 := by omega
      rw [e, interleaveSil, List.getD_cons_succ, List.getD_cons_succ,
        ih i (by simp at hi; omega)]

/-- Every even slot of the interleaving is the matching segment. -/
theorem interleaveSil_getD_even (sil : List ℤ) :
    ∀ (xs : List (List ℤ)) (i : ℕ), i < xs.length →
      (interleaveSil sil xs).getD (2 * i) [] = xs.getD i [] := by
  intro xs
  induction xs with
  | nil => intro i hi; simp at hi
  | cons x xs ih =>
    intro i hi
    cases i with
    | zero => rfl
    | succ i =>
      have e : 2 * (i + 1) = (2 * i) + 1 + 1 := by omega
      rw [e, interleaveSil, List.getD_cons_succ, List.getD_cons_succ,
        ih i (by simp at hi; omega), List.getD_cons_succ]

/-- One sound per sentence. -/
theorem sentenceSoundList_length (env : PipelineEnv) (total : ℕ) :
    ∀ (ss : List Sentence) (i : ℕ) (st : SynthSt),
      (sentenceSoundList env total i ss st).length = ss.length := by
  intro ss
  induction ss with
  | nil => intro i st; rfl
  | cons s rest ih =>
    intro i st
    rw [sentenceSoundList]
    simp only [List.length_cons, ih]

/-- The paragraph loop is exactly the interleaving of the threaded sentence
sounds with the fixed silence. -/
theorem paragraphLoop_interleave (env : PipelineEnv) (silence : List ℤ)
    (total : ℕ) :
    ∀ (ss : List Sentence) (i : ℕ) (st : SynthSt),
      (paragraphLoop env silence total i ss st).1 =
        interleaveSil silence (sentenceSoundList env total i ss st) := by
  intro ss
  induction ss with
  | nil => intro i st; rfl
  | cons s rest ih =>
    intro i st
    rw [paragraphLoop, sentenceSoundList, interleaveSil, ih]

/-- C10: a paragraph that parses into S sentences renders as exactly 2*S
segments, the sentence audio in order interleaved with the 5000-sample
all-zero half second of silence, one silence after every sentence, the
last included. -/
theorem paragraphToSound_alternates_silence (env : PipelineEnv)
    (tokens : List Token) (st0 : SynthSt) (ss : List Sentence)
    (hss : sentencesOf env.P tokens = .ok ss) :
    ∃ stf out, paragraphToSound env tokens st0 = .ok (out, stf) ∧
      out = interleaveSil (List.replicate 5000 0)
        (sentenceSoundList env ss.length 0 ss ⟨st0.cursor, 0⟩) ∧
      out.length = 2 * ss.length ∧
      (∀ i, i < ss.length →
        out.getD (2 * i + 1) [] = List.replicate 5000 0) ∧
      (∀ i, i < ss.length →
        out.getD (2 * i) [] =
          (sentenceSoundList env ss.length 0 ss ⟨st0.cursor, 0⟩).getD i
            []) := by
  refine ⟨(paragraphLoop env (List.replicate 5000 0) ss.length 0 ss
      ⟨st0.cursor, 0⟩).2,
    (paragraphLoop env (List.replicate 5000 0) ss.length 0 ss
      ⟨st0.cursor, 0⟩).1, ?_, ?_, ?_, ?_, ?_⟩
  · rw [paragraphToSound, hss]
    rfl
  · rw [paragraphLoop_interleave]
  · rw [paragraphLoop_interleave, interleaveSil_length,
      sentenceSoundList_length]
  · intro i hi
    rw [paragraphLoop_interleave]
    exact interleaveSil_getD_odd _ _ i
      (by rw [sentenceSoundList_length]; exact hi)
  · intro i hi
    rw [paragraphLoop_interleave]
    exact interleaveSil_getD_even _ _ i
      (by rw [sentenceSoundList_length]; exact hi)

/-- C10 witness: one one-word sentence renders as two segments, its audio
then the half second of silence. -/
theorem paragraphToSound_alternates_silence_witness :
    ∃ stf out,
      paragraphToSound env0 [['a', '.']] st00 = .ok (out, stf) ∧
      out = interleaveSil (List.replicate 5000 0)
        (sentenceSoundList env0 1 0 [([(['a'], [])], [])]
          ⟨st00.cursor, 0⟩) ∧
      out.length = 2 * 1 ∧
      (∀ i, i < 1 → out.getD (2 * i + 1) [] = List.replicate 5000 0) ∧
      (∀ i, i < 1 →
        out.getD (2 * i) [] =
          (sentenceSoundList env0 1 0 [([(['a'], [])], [])]
            ⟨st00.cursor, 0⟩).getD i []) := by
  have h := paragraphToSound_alternates_silence env0 [['a', '.']] st00
    [([(['a'], [])], [])] (by rfl)
  exact h

end PyKlatt
